import Mathlib

/-!
Verification of the Gomoku rules engine (`GameModel`, src/unnamed/part_001) and
search engine (`AIPlayer`, src/js/ai-player.js).

Conventions of the shallow embedding:
* JS numbers used as coordinates, sizes, players and cell values become `Int`;
  a board is a list of rows, each a list of cell values (0 empty, 1 black, 2 white).
* `while` loops that walk along a board direction are modelled with a fuel
  argument; fuel `boardSize.toNat` is an upper bound on the length of any
  run of consecutive in-bounds cells, so the fuelled function agrees with the loop.
* `Date.now()` is modelled by an explicit `now : Int` argument.
* `Math.random()` draws are modelled by explicit rational arguments `q : ℚ`
  (the JS contract is `0 ≤ q < 1`).
* JS methods that mutate the receiver and return a boolean are modelled as
  functions returning the new state paired with the boolean; `undefined`
  results become `none`.
-/

namespace Gomoku

/-- Inclusive integer range `[lo, hi]`, as iterated by `for` loops over ints. -/
def intRange (lo hi : Int) : List Int :=
  (List.range (hi + 1 - lo).toNat).map (fun (i : Nat) => lo + (i : Int))

/-- A board: list of rows, each row a list of cell values (0, 1 or 2). -/
abbrev Board := List (List Int)

/-- Read a board cell; out-of-range reads return the list defaults (only used
under a bounds check, mirroring the guarded accesses in the source). -/
def cellAt (b : Board) (row col : Int) : Int :=
  (b.getD row.toNat []).getD col.toNat 0

/-- Write a board cell (`this.board[row][col] = v`); out of range is a no-op. -/
def setCell (b : Board) (row col : Int) (v : Int) : Board :=
  b.set row.toNat ((b.getD row.toNat []).set col.toNat v)

/-- `isValidPosition` as a function of the board size. -/
def validPos (size row col : Int) : Bool :=
  0 ≤ row && row < size && 0 ≤ col && col < size

/-- One entry of `moveHistory`: `{row, col, player, timestamp}`. -/
structure HistEntry where
  row : Int
  col : Int
  player : Int
  timestamp : Int
deriving DecidableEq, Repr

/-- `gameStatus`: the strings 'playing' / 'won' / 'draw'. -/
inductive Status where
  | playing
  | won
  | draw
deriving DecidableEq, Repr

/-- The state of `GameModel` (src/unnamed/part_001). `startTime` is
`null` or a timestamp. -/
@[ext]
structure GameModel where
  boardSize : Int
  board : Board
  currentPlayer : Int
  gameStatus : Status
  winner : Option Int
  winLine : List (Int × Int)
  moveHistory : List HistEntry
  moveCount : Int
  startTime : Option Int
deriving DecidableEq, Repr

/-- `initializeBoard`: size × size grid of zeros. -/
def emptyBoard (size : Int) : Board :=
  (List.range size.toNat).map (fun _ => (List.range size.toNat).map (fun _ => (0 : Int)))

/-- The `GameModel` constructor. -/
def GameModel.init : GameModel :=
  { boardSize := 15
    board := emptyBoard 15
    currentPlayer := 1
    gameStatus := Status.playing
    winner := none
    winLine := []
    moveHistory := []
    moveCount := 0
    startTime := none }

/-- `setBoardSize(size)`: only 15 and 19 are accepted; any other size is
ignored (the body of the method is guarded by `if (size === 15 || size === 19)`
with no else branch). -/
def setBoardSize (m : GameModel) (size : Int) : GameModel :=
  if size = 15 ∨ size = 19 then
    { m with boardSize := size, board := emptyBoard size }
  else m

/-- `isValidPosition(row, col)`. -/
def GameModel.isValidPosition (m : GameModel) (row col : Int) : Bool :=
  validPos m.boardSize row col

/-- `getCell(row, col)`: the cell value in bounds, `-1` out of bounds. -/
def getCell (m : GameModel) (row col : Int) : Int :=
  if m.isValidPosition row col then cellAt m.board row col else -1

/-- `isValidMove(row, col)`. -/
def isValidMove (m : GameModel) (row col : Int) : Bool :=
  m.isValidPosition row col && cellAt m.board row col == 0 &&
    m.gameStatus == Status.playing

/-- The four directions scanned by `checkWin` (and by the AI):
horizontal, vertical, the two diagonals. -/
def directions : List (Int × Int) := [(0, 1), (1, 0), (1, 1), (1, -1)]

/-- The `while` loop of `checkWin`: collect the consecutive cells holding
`player` starting at `(r, c)` and stepping by `(dR, dC)`.  The fuel bounds
the number of iterations; `boardSize.toNat` steps always suffice. -/
def walkLine (b : Board) (size player dR dC : Int) : Nat → Int → Int → List (Int × Int)
  | 0, _, _ => []
  | fuel + 1, r, c =>
    if validPos size r c && cellAt b r c == player then
      (r, c) :: walkLine b size player dR dC fuel (r + dR) (c + dC)
    else []

/-- The `line` array built by `checkWin` for one direction: the negative-side
cells (farthest first, from the `unshift` calls), then the played cell, then
the positive-side cells. -/
def lineThrough (b : Board) (size player row col : Int) (d : Int × Int) : List (Int × Int) :=
  (walkLine b size player (-d.1) (-d.2) size.toNat (row - d.1) (col - d.2)).reverse ++
    (row, col) :: walkLine b size player d.1 d.2 size.toNat (row + d.1) (col + d.2)

/-- `GameModel.checkWin(row, col)`, result part: the first direction whose run
through `(row, col)` has length ≥ 5 yields `line.slice(0, 5)`.  `none` means
`checkWin` returns `false` without touching `winLine`. -/
def checkWinLine (b : Board) (size row col : Int) : Option (List (Int × Int)) :=
  let player := cellAt b row col
  directions.findSome? (fun d =>
    let line := lineThrough b size player row col d
    if 5 ≤ line.length then some (line.take 5) else none)

/-- `makeMove(row, col)`; `now` stands for `Date.now()`.  Returns the new
state and the boolean result.  The `startTime` update merges the source's
`if (this.moveCount === 1)` guard (evaluated after the increment) into the
record update. -/
def makeMove (m : GameModel) (row col : Int) (now : Int) : GameModel × Bool :=
  if !(isValidMove m row col) then (m, false)
  else
    let m2 : GameModel :=
      { m with
        moveHistory := m.moveHistory ++ [⟨row, col, m.currentPlayer, now⟩]
        board := setCell m.board row col m.currentPlayer
        moveCount := m.moveCount + 1
        startTime := if m.moveCount + 1 = 1 then some now else m.startTime }
    match checkWinLine m2.board m2.boardSize row col with
    | some line =>
      ({ m2 with gameStatus := Status.won, winner := some m2.currentPlayer,
                 winLine := line }, true)
    | none =>
      if m2.moveCount = m2.boardSize * m2.boardSize then
        ({ m2 with gameStatus := Status.draw }, true)
      else
        ({ m2 with currentPlayer := if m2.currentPlayer = 1 then 2 else 1 }, true)

/-- `undoMove()`: pop the last move, clear its cell, restore the mover,
and reset a terminal status to `playing`. -/
def undoMove (m : GameModel) : GameModel × Bool :=
  match m.moveHistory.getLast? with
  | none => (m, false)
  | some lastMove =>
    let m1 : GameModel :=
      { m with
        moveHistory := m.moveHistory.dropLast
        board := setCell m.board lastMove.row lastMove.col 0
        moveCount := m.moveCount - 1
        currentPlayer := lastMove.player }
    let m2 : GameModel :=
      if m1.gameStatus ≠ Status.playing then
        { m1 with gameStatus := Status.playing, winner := none, winLine := [] }
      else m1
    (m2, true)

/-- `getEmptyCells()`: all empty cells in row-major order. -/
def getEmptyCells (m : GameModel) : List (Int × Int) :=
  (intRange 0 (m.boardSize - 1)).flatMap (fun row =>
    (intRange 0 (m.boardSize - 1)).filterMap (fun col =>
      if cellAt m.board row col = 0 then some (row, col) else none))

/-- Insertion into a JS `Set` keeps the first-insertion position of each
element; appending when absent models the Set's iteration order. -/
def insertUnique (l : List (Int × Int)) (x : Int × Int) : List (Int × Int) :=
  if x ∈ l then l else l ++ [x]

/-- All cells in row-major order (the outer double loop of the scans). -/
def allCells (size : Int) : List (Int × Int) :=
  (intRange 0 (size - 1)).flatMap (fun r => (intRange 0 (size - 1)).map (fun c => (r, c)))

/-- The clamped radius-neighborhood double loop of `getRelevantEmptyCells`. -/
def neighborhood (size radius row col : Int) : List (Int × Int) :=
  (intRange (max 0 (row - radius)) (min (size - 1) (row + radius))).flatMap (fun r =>
    (intRange (max 0 (col - radius)) (min (size - 1) (col + radius))).map (fun c => (r, c)))

/-- The cells added to the Set by the main scan of `getRelevantEmptyCells`,
in insertion-attempt order: for each occupied cell, the empty cells of its
clamped neighborhood. -/
def relevantCandidates (m : GameModel) (radius : Int) : List (Int × Int) :=
  (allCells m.boardSize).flatMap (fun rc =>
    if cellAt m.board rc.1 rc.2 ≠ 0 then
      (neighborhood m.boardSize radius rc.1 rc.2).filter
        (fun p => cellAt m.board p.1 p.2 == 0)
    else [])

/-- The cells added by the center fallback of `getRelevantEmptyCells`. -/
def centerCandidates (m : GameModel) : List (Int × Int) :=
  let center : Int := (m.boardSize.toNat / 2 : Nat)
  ((intRange (center - 1) (center + 1)).flatMap (fun r =>
    (intRange (center - 1) (center + 1)).map (fun c => (r, c)))).filter
    (fun p => validPos m.boardSize p.1 p.2 && cellAt m.board p.1 p.2 == 0)

/-- `getRelevantEmptyCells(radius)`: empty cells near occupied cells
(deduplicated, in Set insertion order), or the 3×3 center block when there
are none. -/
def getRelevantEmptyCells (m : GameModel) (radius : Int) : List (Int × Int) :=
  if ((relevantCandidates m radius).foldl insertUnique []).length = 0 then
    (centerCandidates m).foldl insertUnique []
  else (relevantCandidates m radius).foldl insertUnique []

/-! ## The search engine: `AIPlayer` (src/js/ai-player.js) -/

/-- The difficulty keys of `this.settings`. -/
inductive Difficulty where
  | easy
  | medium
  | hard
deriving DecidableEq, Repr

/-- The fields of `AIPlayer` relevant to move selection: the two player tags
and the current settings (search depth, randomness probability). -/
structure AIPlayer where
  player : Int
  opponent : Int
  depth : Nat
  randomness : ℚ
deriving DecidableEq, Repr

/-- `this.settings[difficulty]`: (depth, randomness). -/
def settingsFor : Difficulty → Nat × ℚ
  | Difficulty.easy => (2, 3 / 10)
  | Difficulty.medium => (3, 1 / 10)
  | Difficulty.hard => (4, 1 / 20)

/-- The `AIPlayer` constructor: the engine plays white (2) against black (1). -/
def mkAIPlayer (d : Difficulty) : AIPlayer :=
  { player := 2, opponent := 1, depth := (settingsFor d).1,
    randomness := (settingsFor d).2 }

/-- The `while` loops of `AIPlayer.checkWin`: the number of consecutive cells
holding `player` from `(r, c)` stepping by `(dR, dC)` (fuel-bounded). -/
def countRun (b : Board) (size player dR dC : Int) : Nat → Int → Int → Nat
  | 0, _, _ => 0
  | fuel + 1, r, c =>
    if validPos size r c && cellAt b r c == player then
      1 + countRun b size player dR dC fuel (r + dR) (c + dC)
    else 0

/-- `AIPlayer.checkWin(board, boardSize, row, col, player)`: some direction
has a run of ≥ 5 through `(row, col)`. -/
def AIPlayer.checkWin (b : Board) (size row col player : Int) : Bool :=
  directions.any (fun d =>
    5 ≤ 1 + countRun b size player d.1 d.2 size.toNat (row + d.1) (col + d.2)
          + countRun b size player (-d.1) (-d.2) size.toNat (row - d.1) (col - d.2))

/-- `findWinningMove(board, boardSize, player)`: the first empty cell in
row-major scan order whose (temporary) occupation by `player` wins. -/
def findWinningMove (b : Board) (size player : Int) : Option (Int × Int) :=
  (intRange 0 (size - 1)).findSome? (fun row =>
    (intRange 0 (size - 1)).findSome? (fun col =>
      if cellAt b row col = 0 then
        if AIPlayer.checkWin (setCell b row col player) size row col player then
          some (row, col)
        else none
      else none))

/-- Scores in the search: JS numbers including the `±Infinity` used to seed
`maxScore`, `minScore`, `alpha` and `beta`. -/
inductive Score where
  | ninf
  | fin (n : Int)
  | pinf
deriving DecidableEq, Repr

/-- The `<` comparison on scores. -/
def Score.lt : Score → Score → Bool
  | Score.ninf, Score.ninf => false
  | Score.ninf, _ => true
  | Score.fin _, Score.ninf => false
  | Score.fin a, Score.fin b => a < b
  | Score.fin _, Score.pinf => true
  | Score.pinf, _ => false

/-- `<=` on scores (total order: `a <= b` iff not `b < a`). -/
def Score.le (a b : Score) : Bool := !(Score.lt b a)

/-- `Math.max` on scores. -/
def Score.max (a b : Score) : Score := if Score.lt a b then b else a

/-- `Math.min` on scores. -/
def Score.min (a b : Score) : Score := if Score.lt b a then a else b

/-- `evaluateLine`: classify the 5 cells of the window starting at
`(row, col)` in direction `(dR, dC)` into own / blocked / empty counts
(the fold mirrors the `for (i = 0; i < 5; i++)` loop), then apply the score
table. -/
def evaluateLine (b : Board) (size row col dR dC player : Int) : Int :=
  let stats := (List.range 5).foldl
    (fun (acc : Int × Int × Int) (i : Nat) =>
      let r := row + (i : Int) * dR
      let c := col + (i : Int) * dC
      if r < 0 ∨ size ≤ r ∨ c < 0 ∨ size ≤ c then (acc.1, acc.2.1 + 1, acc.2.2)
      else if cellAt b r c = player then (acc.1 + 1, acc.2.1, acc.2.2)
      else if cellAt b r c = 0 then (acc.1, acc.2.1, acc.2.2 + 1)
      else (acc.1, acc.2.1 + 1, acc.2.2))
    (0, 0, 0)
  let count := stats.1
  let blocks := stats.2.1
  if 2 ≤ blocks then 0
  else if count = 5 then 10000
  else if count = 4 then (if blocks = 0 then 5000 else 1000)
  else if count = 3 then (if blocks = 0 then 500 else 100)
  else if count = 2 then (if blocks = 0 then 50 else 10)
  else if count = 1 then (if blocks = 0 then 5 else 1)
  else 0

/-- `evaluateAllLines`: sum of `evaluateLine` over every cell and direction. -/
def evaluateAllLines (b : Board) (size player : Int) : Int :=
  ((allCells size).map (fun rc =>
    (directions.map (fun d => evaluateLine b size rc.1 rc.2 d.1 d.2 player)).sum)).sum

/-- `evaluatePosition`: ±10000 on a won game, 0 on a draw, otherwise the
engine player's line total minus the opponent's. -/
def evaluatePosition (ai : AIPlayer) (m : GameModel) : Int :=
  match m.gameStatus with
  | Status.won => if m.winner = some ai.player then 10000 else -10000
  | Status.draw => 0
  | Status.playing =>
    evaluateAllLines m.board m.boardSize ai.player
      - evaluateAllLines m.board m.boardSize ai.opponent

/-- The result of one `minimax` call: the score, the best move found at this
layer, and the Rules Engine state as the call leaves it. -/
structure MMResult where
  score : Score
  move : Option (Int × Int)
  model : GameModel
deriving Repr

/-- The maximizing loop body of `minimax`: iterate the candidate moves,
overriding `currentPlayer` with the engine player, applying the move,
recursing (`recurse` is the depth-reduced `minimax`), undoing, and
restoring the turn pointer; stop early when `beta <= alpha`. -/
def mmMax (ai : AIPlayer) (recurse : GameModel → Score → Score → MMResult) :
    List (Int × Int) → GameModel → Score → Option (Int × Int) → Score → Score → MMResult
  | [], m, best, bestMove, _, _ => ⟨best, bestMove, m⟩
  | (row, col) :: rest, m, best, bestMove, alpha, beta =>
    let originalPlayer := m.currentPlayer
    let m2 := (makeMove { m with currentPlayer := ai.player } row col 0).1
    let result := recurse m2 alpha beta
    let m3 := (undoMove result.model).1
    let m4 := { m3 with currentPlayer := originalPlayer }
    let best2 := if Score.lt best result.score then result.score else best
    let bestMove2 := if Score.lt best result.score then some (row, col) else bestMove
    let alpha2 := Score.max alpha result.score
    if Score.le beta alpha2 then ⟨best2, bestMove2, m4⟩
    else mmMax ai recurse rest m4 best2 bestMove2 alpha2 beta

/-- The minimizing loop body of `minimax` (symmetric, with the opponent). -/
def mmMin (ai : AIPlayer) (recurse : GameModel → Score → Score → MMResult) :
    List (Int × Int) → GameModel → Score → Option (Int × Int) → Score → Score → MMResult
  | [], m, best, bestMove, _, _ => ⟨best, bestMove, m⟩
  | (row, col) :: rest, m, best, bestMove, alpha, beta =>
    let originalPlayer := m.currentPlayer
    let m2 := (makeMove { m with currentPlayer := ai.opponent } row col 0).1
    let result := recurse m2 alpha beta
    let m3 := (undoMove result.model).1
    let m4 := { m3 with currentPlayer := originalPlayer }
    let best2 := if Score.lt result.score best then result.score else best
    let bestMove2 := if Score.lt result.score best then some (row, col) else bestMove
    let beta2 := Score.min beta result.score
    if Score.le beta2 alpha then ⟨best2, bestMove2, m4⟩
    else mmMin ai recurse rest m4 best2 bestMove2 alpha beta2

/-- `minimax(gameModel, depth, maximizing, alpha, beta)`. -/
def minimax (ai : AIPlayer) : Nat → GameModel → Bool → Score → Score → MMResult
  | 0, m, _, _, _ => ⟨Score.fin (evaluatePosition ai m), none, m⟩
  | depth + 1, m, maximizing, alpha, beta =>
    if m.gameStatus ≠ Status.playing then
      ⟨Score.fin (evaluatePosition ai m), none, m⟩
    else
      let relevantMoves := getRelevantEmptyCells m 2
      if maximizing then
        mmMax ai (fun m2 a b => minimax ai depth m2 false a b)
          relevantMoves m Score.ninf none alpha beta
      else
        mmMin ai (fun m2 a b => minimax ai depth m2 true a b)
          relevantMoves m Score.pinf none alpha beta

/-- `Math.floor(q * n)` as a list index. -/
def randIndex (q : ℚ) (n : Nat) : Nat := (q * n).floor.toNat

/-- `addRandomness(bestMove, alternativeMoves)`: with probability
`randomness`, and only when there are at least two alternatives, pick from
the top `min 3` alternatives; `none` models an out-of-range (undefined)
array access. -/
def addRandomness (ai : AIPlayer) (q1 q2 : ℚ) (bestMove : Int × Int)
    (alternativeMoves : List (Int × Int)) : Option (Int × Int) :=
  if q1 < ai.randomness ∧ 1 < alternativeMoves.length then
    alternativeMoves.get? (randIndex q2 (min 3 alternativeMoves.length))
  else some bestMove

/-- `getRandomCenterMove(gameModel)`: a random empty cell within radius 3 of
the center, else a random empty cell, else `undefined` (`none`). -/
def getRandomCenterMove (m : GameModel) (q1 q2 : ℚ) : Option (Int × Int) :=
  let center : Int := (m.boardSize.toNat / 2 : Nat)
  let radius : Int := 3
  let moves := (intRange (max 0 (center - radius)) (min (m.boardSize - 1) (center + radius))).flatMap
    (fun row =>
      (intRange (max 0 (center - radius)) (min (m.boardSize - 1) (center + radius))).filterMap
        (fun col => if getCell m row col = 0 then some (row, col) else none))
  if moves.length = 0 then
    let emptyCells := getEmptyCells m
    if 0 < emptyCells.length then emptyCells.get? (randIndex q1 emptyCells.length)
    else moves.get? (randIndex q2 moves.length)
  else moves.get? (randIndex q2 moves.length)

/-- `getBestMove(gameModel)`: immediate win, immediate block, minimax choice
(with randomness over the relevant cells), then the center fallback.  The
post-search reads (`getRelevantEmptyCells`, the fallback) are made on the
state as the search left it. -/
def getBestMove (ai : AIPlayer) (m : GameModel) (q1 q2 q3 q4 : ℚ) : Option (Int × Int) :=
  match findWinningMove m.board m.boardSize ai.player with
  | some winMove => addRandomness ai q1 q2 winMove [winMove]
  | none =>
    match findWinningMove m.board m.boardSize ai.opponent with
    | some blockMove => addRandomness ai q1 q2 blockMove [blockMove]
    | none =>
      let mm := minimax ai ai.depth m true Score.ninf Score.pinf
      match mm.move with
      | some bestMove =>
        addRandomness ai q1 q2 bestMove (getRelevantEmptyCells mm.model 2)
      | none => getRandomCenterMove mm.model q3 q4

/-! ## Basic lemmas about the helpers -/

theorem mem_map_range {α : Type} (n : Nat) (f : Nat → α) (x : α) :
    x ∈ (List.range n).map f ↔ ∃ i, i < n ∧ f i = x := by
  induction n with
  | zero => simp
  | succ n ih =>
    rw [List.range_succ, List.map_append, List.mem_append, ih]
    constructor
    · rintro (⟨i, h1, h2⟩ | h)
      · exact ⟨i, by omega, h2⟩
      · have hx : x = f n := by simpa using h
        exact ⟨n, by omega, hx.symm⟩
    · rintro ⟨i, h1, h2⟩
      rcases Nat.lt_or_ge i n with h3 | h3
      · exact Or.inl ⟨i, h3, h2⟩
      · have hin : i = n := by omega
        subst hin
        exact Or.inr (by simp [h2])

theorem mem_intRange {lo hi x : Int} : x ∈ intRange lo hi ↔ lo ≤ x ∧ x ≤ hi := by
  unfold intRange
  rw [mem_map_range]
  constructor
  · rintro ⟨i, h1, rfl⟩
    omega
  · intro h
    exact ⟨(x - lo).toNat, by omega, by omega⟩

theorem set_getD_self {α : Type} (l : List α) (i : Nat) (d : α) :
    l.set i (l.getD i d) = l := by
  induction l generalizing i with
  | nil => simp
  | cons a t ih =>
    cases i with
    | zero => simp
    | succ j =>
      have := ih j
      simp only [List.getD_cons_succ, List.set_cons_succ, this]

theorem getD_set_self {α : Type} (l : List α) (i : Nat) (a d : α) (h : i < l.length) :
    (l.set i a).getD i d = a := by
  induction l generalizing i with
  | nil => simp at h
  | cons x t ih =>
    cases i with
    | zero => simp
    | succ j => simpa using ih j (by simpa using h)

theorem getD_set_ne {α : Type} (l : List α) (i j : Nat) (a d : α) (h : i ≠ j) :
    (l.set i a).getD j d = l.getD j d := by
  induction l generalizing i j with
  | nil => simp
  | cons x t ih =>
    cases i with
    | zero => cases j with
      | zero => omega
      | succ j2 => simp
    | succ i2 => cases j with
      | zero => simp
      | succ j2 => simpa using ih i2 j2 (by omega)

theorem length_setCell (b : Board) (row col v : Int) :
    (setCell b row col v).length = b.length := by
  simp [setCell]

theorem cellAt_setCell_self (b : Board) (row col v : Int)
    (hr : row.toNat < b.length) (hc : col.toNat < (b.getD row.toNat []).length) :
    cellAt (setCell b row col v) row col = v := by
  unfold cellAt setCell
  rw [getD_set_self _ _ _ _ hr, getD_set_self _ _ _ _ hc]

theorem cellAt_setCell_ne (b : Board) (row col r c v : Int)
    (h : row.toNat ≠ r.toNat ∨ col.toNat ≠ c.toNat) :
    cellAt (setCell b row col v) r c = cellAt b r c := by
  unfold cellAt setCell
  rcases h with h | h
  · rw [getD_set_ne _ _ _ _ _ h]
  · rcases eq_or_ne row.toNat r.toNat with he | he
    · rw [he]
      rcases Nat.lt_or_ge r.toNat b.length with hlt | hge
      · rw [getD_set_self _ _ _ _ hlt, getD_set_ne _ _ _ _ _ h]
      · have e1 : (b.set r.toNat ((b.getD r.toNat []).set col.toNat v)).getD r.toNat [] =
            ([] : List Int) := List.getD_eq_default _ _ (by simpa using hge)
        have e2 : b.getD r.toNat [] = ([] : List Int) := List.getD_eq_default _ _ hge
        rw [e1, e2]
    · rw [getD_set_ne _ _ _ _ _ he]

theorem setCell_cancel (b : Board) (row col v : Int) (h : cellAt b row col = 0) :
    setCell (setCell b row col v) row col 0 = b := by
  unfold setCell
  rcases Nat.lt_or_ge row.toNat b.length with hr | hr
  · rw [getD_set_self _ _ _ _ hr, List.set_set]
    rw [List.set_set]
    have : (b.getD row.toNat []).set col.toNat 0 = b.getD row.toNat [] := by
      have := set_getD_self (b.getD row.toNat []) col.toNat (0 : Int)
      rwa [show (b.getD row.toNat []).getD col.toNat 0 = 0 from h] at this
    rw [this, set_getD_self]
  · have h1 : b.set row.toNat ((b.getD row.toNat []).set col.toNat v) = b :=
      List.set_eq_of_length_le (by omega)
    rw [h1]
    exact List.set_eq_of_length_le (by omega)

theorem mem_insertUnique_iff (l : List (Int × Int)) (y x : Int × Int) :
    x ∈ insertUnique l y ↔ x ∈ l ∨ x = y := by
  unfold insertUnique
  split
  · constructor
    · exact Or.inl
    · rintro (h | rfl) <;> assumption
  · rw [List.mem_append, List.mem_singleton]

theorem mem_foldl_insertUnique (l : List (Int × Int)) (acc : List (Int × Int))
    (x : Int × Int) : x ∈ l.foldl insertUnique acc ↔ x ∈ acc ∨ x ∈ l := by
  induction l generalizing acc with
  | nil => simp
  | cons a t ih =>
    rw [List.foldl_cons, ih, mem_insertUnique_iff, List.mem_cons]
    tauto

theorem foldl_insertUnique_ne_nil (l : List (Int × Int)) (acc : List (Int × Int))
    (h : l ≠ []) : l.foldl insertUnique acc ≠ [] := by
  intro hcon
  rcases List.exists_mem_of_ne_nil l h with ⟨x, hx⟩
  have := (mem_foldl_insertUnique l acc x).2 (Or.inr hx)
  rw [hcon] at this
  simp at this

/-! ## Shape of the `checkWin` line walks -/

theorem walkLine_cells (b : Board) (size player dR dC : Int) :
    ∀ (fuel : Nat) (a c : Int), ∀ p ∈ walkLine b size player dR dC fuel a c,
      cellAt b p.1 p.2 = player ∧ validPos size p.1 p.2 = true := by
  intro fuel
  induction fuel with
  | zero => intro a c p hp; simp [walkLine] at hp
  | succ n ih =>
    intro a c p hp
    rw [walkLine] at hp
    by_cases hcond : (validPos size a c && cellAt b a c == player) = true
    · rw [if_pos hcond] at hp
      rcases List.mem_cons.1 hp with rfl | hp2
      · simp only [Bool.and_eq_true, beq_iff_eq] at hcond
        exact ⟨hcond.2, hcond.1⟩
      · exact ih _ _ p hp2
    · rw [if_neg hcond] at hp
      simp at hp

theorem walkLine_shape (b : Board) (size player dR dC : Int) :
    ∀ (fuel : Nat) (a c : Int), ∃ k : Nat,
      walkLine b size player dR dC fuel a c =
        (List.range k).map (fun (i : Nat) => (a + i * dR, c + i * dC)) := by
  intro fuel
  induction fuel with
  | zero => intro a c; exact ⟨0, by simp [walkLine]⟩
  | succ n ih =>
    intro a c
    rw [walkLine]
    split
    · rcases ih (a + dR) (c + dC) with ⟨k, hk⟩
      refine ⟨k + 1, ?_⟩
      rw [hk, List.range_succ_eq_map, List.map_cons, List.map_map]
      refine congrArg₂ _ (by simp) (List.map_congr_left ?_)
      intro i _
      simp only [Function.comp_apply, Nat.succ_eq_add_one, Prod.mk.injEq]
      constructor <;> (push_cast; ring)
    · exact ⟨0, by simp⟩

theorem reverse_map_range {α : Type} (k : Nat) (h : Nat → α) :
    ((List.range k).map h).reverse = (List.range k).map (fun j => h (k - 1 - j)) := by
  induction k with
  | zero => simp
  | succ k ih =>
    conv_lhs => rw [List.range_succ]
    rw [List.map_append, List.reverse_append]
    simp only [List.map_cons, List.map_nil, List.reverse_cons, List.reverse_nil,
      List.nil_append, List.cons_append]
    rw [ih]
    conv_rhs => rw [List.range_succ_eq_map]
    rw [List.map_cons, List.map_map]
    refine congrArg₂ _ ?_ (List.map_congr_left ?_)
    · congr 1 <;> omega
    · intro i _
      simp only [Function.comp_apply, Nat.succ_eq_add_one]
      congr 1 <;> omega

/-- The full line built by `checkWin` for a direction is an arithmetic
progression of cells with unit step `d`, with the played cell at index `kn`. -/
theorem lineThrough_shape (b : Board) (size player row col : Int) (d : Int × Int) :
    ∃ (kn kp : Nat),
      lineThrough b size player row col d =
        (List.range (kn + 1 + kp)).map
          (fun (j : Nat) => (row + ((j : Int) - kn) * d.1, col + ((j : Int) - kn) * d.2)) := by
  rcases walkLine_shape b size player d.1 d.2 size.toNat (row + d.1) (col + d.2) with ⟨kp, hp⟩
  rcases walkLine_shape b size player (-d.1) (-d.2) size.toNat (row - d.1) (col - d.2) with ⟨kn, hn⟩
  refine ⟨kn, kp, ?_⟩
  unfold lineThrough
  rw [hp, hn, reverse_map_range]
  have hsplit : kn + 1 + kp = (kn + 1) + kp := rfl
  rw [hsplit, List.range_add, List.map_append, List.range_succ, List.map_append,
    List.append_assoc]
  congr 1
  · refine List.map_congr_left ?_
    intro j hj
    have hjlt : j < kn := List.mem_range.1 hj
    have h1 : ((kn - 1 - j : Nat) : Int) = (kn : Int) - 1 - j := by omega
    simp only [Prod.mk.injEq]
    constructor <;> (rw [h1]; push_cast; ring)
  · simp only [List.map_cons, List.map_nil, List.singleton_append, List.map_map]
    refine congrArg₂ _ ?_ (List.map_congr_left ?_)
    · simp
    · intro j _
      simp only [Function.comp_apply, Prod.mk.injEq]
      constructor <;> (push_cast; ring)

/-- Reading `checkWin`'s result: the first direction with a run of length ≥ 5
supplies `winLine` as the first five cells of that run. -/
theorem checkWinLine_spec (b : Board) (size row col : Int) (l : List (Int × Int))
    (h : checkWinLine b size row col = some l) :
    ∃ d ∈ directions,
      5 ≤ (lineThrough b size (cellAt b row col) row col d).length ∧
        l = (lineThrough b size (cellAt b row col) row col d).take 5 := by
  unfold checkWinLine at h
  rcases List.exists_of_findSome?_eq_some h with ⟨d, hd, hfd⟩
  refine ⟨d, hd, ?_⟩
  by_cases hlen : 5 ≤ (lineThrough b size (cellAt b row col) row col d).length
  · rw [if_pos hlen] at hfd
    exact ⟨hlen, (Option.some.injEq _ _ ▸ hfd).symm⟩
  · rw [if_neg hlen] at hfd
    exact absurd hfd (by simp)

/-! ## The state invariant and reachability -/

/-- Number of occupied (non-zero) cells on a board. -/
def occupiedCount (b : Board) : Nat :=
  (b.map (fun row => row.countP (fun v => !(v == 0)))).sum

theorem countP_set_occ (l : List Int) (j : Nat) (v : Int) (hj : j < l.length)
    (h0 : l.getD j 0 = 0) (hv : v ≠ 0) :
    (l.set j v).countP (fun x => !(x == 0)) = l.countP (fun x => !(x == 0)) + 1 := by
  induction l generalizing j with
  | nil => simp at hj
  | cons a t ih =>
    cases j with
    | zero =>
      have ha : a = 0 := by simpa using h0
      subst ha
      simp [List.countP_cons, hv]
    | succ j2 =>
      have := ih j2 (by simpa using hj) (by simpa using h0)
      simp only [List.set_cons_succ, List.countP_cons]
      omega

theorem sum_set_nat (l : List Nat) (i : Nat) (x : Nat) (hi : i < l.length) :
    (l.set i x).sum + l.getD i 0 = l.sum + x := by
  induction l generalizing i with
  | nil => simp at hi
  | cons a t ih =>
    cases i with
    | zero => simp [List.sum_cons]; omega
    | succ i2 =>
      have := ih i2 (by simpa using hi)
      simp only [List.set_cons_succ, List.sum_cons, List.getD_cons_succ]
      omega

theorem occupiedCount_setCell (b : Board) (row col v : Int)
    (hr : row.toNat < b.length) (hc : col.toNat < (b.getD row.toNat []).length)
    (h0 : cellAt b row col = 0) (hv : v ≠ 0) :
    occupiedCount (setCell b row col v) = occupiedCount b + 1 := by
  unfold occupiedCount setCell
  rw [List.map_set]
  have hmap : row.toNat < (b.map (fun r => r.countP (fun x => !(x == 0)))).length := by
    simpa using hr
  have hsum := sum_set_nat (b.map (fun r => r.countP (fun x => !(x == 0)))) row.toNat
    (((b.getD row.toNat []).set col.toNat v).countP (fun x => !(x == 0))) hmap
  have hgetD : (b.map (fun r => r.countP (fun x => !(x == 0)))).getD row.toNat 0 =
      (b.getD row.toNat []).countP (fun x => !(x == 0)) := by
    have h1 : b.getD row.toNat [] = b[row.toNat] := List.getD_eq_getElem b [] hr
    have h2 := List.getD_eq_getElem (b.map (fun r => r.countP (fun x => !(x == 0)))) 0 hmap
    rw [h2, List.getElem_map, h1]
  rw [hgetD] at hsum
  rw [countP_set_occ _ _ _ hc h0 hv] at hsum
  rw [countP_set_occ _ _ _ hc h0 hv]
  omega

theorem sum_map_const {α : Type} (l : List α) (f : α → Nat) (k : Nat)
    (h : ∀ x ∈ l, f x = k) : (l.map f).sum = l.length * k := by
  induction l with
  | nil => simp
  | cons a t ih =>
    rw [List.map_cons, List.sum_cons, h a (by simp), ih (fun x hx => h x (by simp [hx])),
      List.length_cons]
    ring

theorem occupiedCount_le (b : Board) (n : Nat) (hcols : ∀ row ∈ b, row.length = n) :
    occupiedCount b ≤ b.length * n := by
  unfold occupiedCount
  calc (b.map (fun row => row.countP (fun v => !(v == 0)))).sum
      ≤ (b.map (fun row => row.length)).sum := by
        apply List.sum_le_sum
        intro row hrow
        exact List.countP_le_length _
    _ = b.length * n := sum_map_const b _ n hcols

/-- If not every in-bounds cell is occupied, some in-bounds cell is empty. -/
theorem exists_empty_of_count_lt (b : Board) (size : Int)
    (hrows : b.length = size.toNat) (hcols : ∀ row ∈ b, row.length = size.toNat)
    (hlt : occupiedCount b < size.toNat * size.toNat) :
    ∃ r c : Int, validPos size r c = true ∧ cellAt b r c = 0 := by
  by_contra hcon
  push_neg at hcon
  have hfull : ∀ row ∈ b, (row.countP (fun v => !(v == 0))) = size.toNat := by
    intro row hrow
    rcases List.getElem_of_mem hrow with ⟨i, hilt, hrow_eq⟩
    have hall : ∀ a ∈ row, (fun v => !(v == 0)) a = true := by
      intro a ha
      rcases List.getElem_of_mem ha with ⟨j, hjlt, ha_eq⟩
      have hi2 : i < size.toNat := by omega
      have hj2 : j < size.toNat := by rw [hcols row hrow] at hjlt; omega
      have hvalid : validPos size (i : Int) (j : Int) = true := by
        simp only [validPos, Bool.and_eq_true, decide_eq_true_eq]
        omega
      have hcell : cellAt b (i : Int) (j : Int) = a := by
        unfold cellAt
        rw [show ((i : Int)).toNat = i from rfl, show ((j : Int)).toNat = j from rfl,
          List.getD_eq_getElem b [] hilt, hrow_eq,
          List.getD_eq_getElem row 0 hjlt, ha_eq]
      have hne := hcon (i : Int) (j : Int) hvalid
      rw [hcell] at hne
      simpa using hne
    rw [List.countP_eq_length.2 hall]
    exact hcols row hrow
  have : occupiedCount b = size.toNat * size.toNat := by
    unfold occupiedCount
    rw [sum_map_const b _ size.toNat hfull, hrows]
  omega

/-- Facts about every state reachable by legal moves from a fresh board.
`won_facts` / `draw_facts` record how a terminal status was produced (at the
last played cell, on the current board). -/
structure Inv (m : GameModel) : Prop where
  size_ok : m.boardSize = 15 ∨ m.boardSize = 19
  rows_len : m.board.length = m.boardSize.toNat
  cols_len : ∀ row ∈ m.board, row.length = m.boardSize.toNat
  cells_range : ∀ row ∈ m.board, ∀ v ∈ row, v = 0 ∨ v = 1 ∨ v = 2
  player_range : m.currentPlayer = 1 ∨ m.currentPlayer = 2
  count_eq : m.moveCount = (occupiedCount m.board : Int)
  clean : m.gameStatus = Status.playing → m.winner = none ∧ m.winLine = []
  not_full : m.gameStatus = Status.playing → m.moveCount ≠ m.boardSize * m.boardSize
  won_facts : m.gameStatus = Status.won → ∃ e : HistEntry,
    m.moveHistory.getLast? = some e ∧ m.winner = some e.player ∧
    (e.player = 1 ∨ e.player = 2) ∧ cellAt m.board e.row e.col = e.player ∧
    checkWinLine m.board m.boardSize e.row e.col = some m.winLine
  draw_facts : m.gameStatus = Status.draw →
    m.moveCount = m.boardSize * m.boardSize ∧
    ∃ e : HistEntry, m.moveHistory.getLast? = some e ∧
      checkWinLine m.board m.boardSize e.row e.col = none

theorem emptyBoard_rows (size : Int) : (emptyBoard size).length = size.toNat := by
  simp [emptyBoard]

theorem emptyBoard_cols (size : Int) :
    ∀ row ∈ emptyBoard size, row.length = size.toNat := by
  intro row h
  rcases List.mem_map.1 h with ⟨i, _, rfl⟩
  simp

theorem emptyBoard_cells (size : Int) :
    ∀ row ∈ emptyBoard size, ∀ v ∈ row, v = 0 := by
  intro row h v hv
  rcases List.mem_map.1 h with ⟨i, _, rfl⟩
  rcases List.mem_map.1 hv with ⟨j, _, rfl⟩
  rfl

theorem occupiedCount_emptyBoard (size : Int) : occupiedCount (emptyBoard size) = 0 := by
  unfold occupiedCount
  rw [sum_map_const _ _ 0, Nat.mul_zero]
  intro row hrow
  rw [List.countP_eq_zero]
  intro a ha
  rw [emptyBoard_cells size row hrow a ha]
  simp

theorem inv_fresh (size : Int) (hs : size = 15 ∨ size = 19) :
    Inv { boardSize := size, board := emptyBoard size, currentPlayer := 1,
          gameStatus := Status.playing, winner := none, winLine := [],
          moveHistory := [], moveCount := 0, startTime := none } := by
  refine ⟨hs, emptyBoard_rows size, emptyBoard_cols size, ?_, Or.inl rfl, ?_, ?_, ?_, ?_, ?_⟩
  · intro row h v hv
    exact Or.inl (emptyBoard_cells size row h v hv)
  · simp [occupiedCount_emptyBoard]
  · intro _
    exact ⟨rfl, rfl⟩
  · intro _
    rcases hs with rfl | rfl <;> decide
  · intro h
    simp at h
  · intro h
    simp at h

/-- The useful content of a successful `isValidMove`. -/
theorem isValidMove_parts {m : GameModel} {row col : Int}
    (hv : isValidMove m row col = true) :
    (0 ≤ row ∧ row < m.boardSize ∧ 0 ≤ col ∧ col < m.boardSize) ∧
      cellAt m.board row col = 0 ∧ m.gameStatus = Status.playing := by
  simp only [isValidMove, GameModel.isValidPosition, validPos, Bool.and_eq_true,
    decide_eq_true_eq, beq_iff_eq] at hv
  tauto

theorem bounds_of_valid {m : GameModel} {row col : Int} (hinv : Inv m)
    (h0r : 0 ≤ row) (hr : row < m.boardSize) (h0c : 0 ≤ col) (hc : col < m.boardSize) :
    row.toNat < m.board.length ∧ col.toNat < (m.board.getD row.toNat []).length := by
  have hrl : row.toNat < m.board.length := by rw [hinv.rows_len]; omega
  have hrow_mem : m.board.getD row.toNat [] ∈ m.board := by
    rw [List.getD_eq_getElem _ _ hrl]
    exact List.getElem_mem hrl
  exact ⟨hrl, by rw [hinv.cols_len _ hrow_mem]; omega⟩

/-- The state written by `makeMove` before the win/draw tests. -/
def placed (m : GameModel) (row col now : Int) : GameModel :=
  { m with
    moveHistory := m.moveHistory ++ [⟨row, col, m.currentPlayer, now⟩]
    board := setCell m.board row col m.currentPlayer
    moveCount := m.moveCount + 1
    startTime := if m.moveCount + 1 = 1 then some now else m.startTime }

theorem makeMove_won_eq {m : GameModel} {row col now : Int} {line : List (Int × Int)}
    (hv : isValidMove m row col = true)
    (hline : checkWinLine (setCell m.board row col m.currentPlayer) m.boardSize row col
      = some line) :
    makeMove m row col now =
      ({ placed m row col now with
          gameStatus := Status.won
          winner := some m.currentPlayer
          winLine := line }, true) := by
  unfold makeMove
  rw [hv]
  simp only [Bool.not_true, Bool.false_eq_true, if_false]
  rw [hline]
  rfl

theorem makeMove_draw_eq {m : GameModel} {row col now : Int}
    (hv : isValidMove m row col = true)
    (hline : checkWinLine (setCell m.board row col m.currentPlayer) m.boardSize row col
      = none)
    (hfull : m.moveCount + 1 = m.boardSize * m.boardSize) :
    makeMove m row col now =
      ({ placed m row col now with gameStatus := Status.draw }, true) := by
  unfold makeMove
  rw [hv]
  simp only [Bool.not_true, Bool.false_eq_true, if_false]
  rw [hline]
  rw [if_pos hfull]
  rfl

theorem makeMove_step_eq {m : GameModel} {row col now : Int}
    (hv : isValidMove m row col = true)
    (hline : checkWinLine (setCell m.board row col m.currentPlayer) m.boardSize row col
      = none)
    (hfull : m.moveCount + 1 ≠ m.boardSize * m.boardSize) :
    makeMove m row col now =
      ({ placed m row col now with
          currentPlayer := if m.currentPlayer = 1 then 2 else 1 }, true) := by
  unfold makeMove
  rw [hv]
  simp only [Bool.not_true, Bool.false_eq_true, if_false]
  rw [hline]
  rw [if_neg hfull]
  rfl

theorem makeMove_fail_eq {m : GameModel} {row col now : Int}
    (hv : isValidMove m row col = false) :
    makeMove m row col now = (m, false) := by
  unfold makeMove
  rw [hv]
  rfl

theorem undoMove_playing_eq {m : GameModel} {hist : List HistEntry} {e : HistEntry}
    (hhist : m.moveHistory = hist ++ [e]) (hst : m.gameStatus = Status.playing) :
    undoMove m =
      ({ m with
          moveHistory := hist
          board := setCell m.board e.row e.col 0
          moveCount := m.moveCount - 1
          currentPlayer := e.player }, true) := by
  unfold undoMove
  rw [hhist, List.getLast?_concat]
  simp only [hst, List.dropLast_concat]
  rfl

theorem undoMove_terminal_eq {m : GameModel} {hist : List HistEntry} {e : HistEntry}
    (hhist : m.moveHistory = hist ++ [e]) (hst : m.gameStatus ≠ Status.playing) :
    undoMove m =
      ({ m with
          moveHistory := hist
          board := setCell m.board e.row e.col 0
          moveCount := m.moveCount - 1
          currentPlayer := e.player
          gameStatus := Status.playing
          winner := none
          winLine := [] }, true) := by
  unfold undoMove
  rw [hhist, List.getLast?_concat]
  simp only [ne_eq, hst, not_false_iff, if_pos, List.dropLast_concat]

/-- A legal move preserves the invariant. -/
theorem makeMove_inv {m : GameModel} {row col now : Int} (hinv : Inv m)
    (hv : isValidMove m row col = true) : Inv (makeMove m row col now).1 := by
  obtain ⟨⟨h0r, hr, h0c, hc⟩, hcell, hst⟩ := isValidMove_parts hv
  obtain ⟨hbr, hbc⟩ := bounds_of_valid hinv h0r hr h0c hc
  have hpne : m.currentPlayer ≠ 0 := by
    rcases hinv.player_range with h | h <;> omega
  have hrows2 : (setCell m.board row col m.currentPlayer).length = m.boardSize.toNat := by
    rw [length_setCell, hinv.rows_len]
  have hrowmem : m.board.getD row.toNat [] ∈ m.board := by
    rw [List.getD_eq_getElem _ _ hbr]
    exact List.getElem_mem hbr
  have hcols2 : ∀ r ∈ setCell m.board row col m.currentPlayer,
      r.length = m.boardSize.toNat := by
    intro r hmem
    rcases List.mem_or_eq_of_mem_set hmem with hin | rfl
    · exact hinv.cols_len r hin
    · rw [List.length_set]
      exact hinv.cols_len _ hrowmem
  have hcells2 : ∀ r ∈ setCell m.board row col m.currentPlayer,
      ∀ v ∈ r, v = 0 ∨ v = 1 ∨ v = 2 := by
    intro r hmem v hvmem
    rcases List.mem_or_eq_of_mem_set hmem with hin | rfl
    · exact hinv.cells_range r hin v hvmem
    · rcases List.mem_or_eq_of_mem_set hvmem with hvin | rfl
      · exact hinv.cells_range _ hrowmem v hvin
      · rcases hinv.player_range with h | h
        · exact Or.inr (Or.inl h)
        · exact Or.inr (Or.inr h)
  have hcount2 : m.moveCount + 1 =
      (occupiedCount (setCell m.board row col m.currentPlayer) : Int) := by
    rw [occupiedCount_setCell m.board row col m.currentPlayer hbr hbc hcell hpne]
    have := hinv.count_eq
    push_cast
    omega
  have hcellset : cellAt (setCell m.board row col m.currentPlayer) row col
      = m.currentPlayer := cellAt_setCell_self _ _ _ _ hbr hbc
  cases hline : checkWinLine (setCell m.board row col m.currentPlayer) m.boardSize row col with
  | some line =>
    rw [makeMove_won_eq hv hline]
    refine ⟨hinv.size_ok, hrows2, hcols2, hcells2, hinv.player_range, hcount2, ?_, ?_, ?_, ?_⟩
    · intro h
      simp at h
    · intro h
      simp at h
    · intro _
      exact ⟨⟨row, col, m.currentPlayer, now⟩, List.getLast?_concat _, rfl,
        hinv.player_range, hcellset, hline⟩
    · intro h
      simp at h
  | none =>
    by_cases hfull : m.moveCount + 1 = m.boardSize * m.boardSize
    · rw [makeMove_draw_eq hv hline hfull]
      refine ⟨hinv.size_ok, hrows2, hcols2, hcells2, hinv.player_range, hcount2, ?_, ?_, ?_, ?_⟩
      · intro h
        simp at h
      · intro h
        simp at h
      · intro h
        simp at h
      · intro _
        exact ⟨hfull, ⟨row, col, m.currentPlayer, now⟩, List.getLast?_concat _, hline⟩
    · rw [makeMove_step_eq hv hline hfull]
      refine ⟨hinv.size_ok, hrows2, hcols2, hcells2, ?_, hcount2, ?_, ?_, ?_, ?_⟩
      · by_cases h1 : m.currentPlayer = 1 <;> simp [h1]
      · intro _
        exact hinv.clean hst
      · intro _
        exact hfull
      · intro h
        have h2 : m.gameStatus = Status.won := h
        rw [hst] at h2
        simp at h2
      · intro h
        have h2 : m.gameStatus = Status.draw := h
        rw [hst] at h2
        simp at h2

/-- States reachable from a fresh board (15×15 as constructed, or resized to
19×19 before play) by legal applications of `makeMove`. -/
inductive Reachable : GameModel → Prop where
  | base : Reachable GameModel.init
  | base19 : Reachable (setBoardSize GameModel.init 19)
  | step {m : GameModel} (row col now : Int) :
      Reachable m → isValidMove m row col = true →
      Reachable (makeMove m row col now).1

theorem reachable_inv {m : GameModel} (h : Reachable m) : Inv m := by
  induction h with
  | base => exact inv_fresh 15 (Or.inl rfl)
  | base19 =>
    have hset : setBoardSize GameModel.init 19 =
        { boardSize := 19, board := emptyBoard 19, currentPlayer := 1,
          gameStatus := Status.playing, winner := none, winLine := [],
          moveHistory := [], moveCount := 0, startTime := none } := rfl
    rw [hset]
    exact inv_fresh 19 (Or.inr rfl)
  | step row col now _ hv ih => exact makeMove_inv ih hv

/-! ## The apply/undo round trip -/

/-- Undoing a just-made legal move restores every field except `startTime`
(which `makeMove` may set on the first move and `undoMove` never clears). -/
theorem undo_makeMove {m : GameModel} {row col now : Int}
    (hv : isValidMove m row col = true)
    (hclean : m.winner = none ∧ m.winLine = []) :
    (undoMove (makeMove m row col now).1).1 =
      { m with startTime := if m.moveCount + 1 = 1 then some now else m.startTime } := by
  obtain ⟨⟨h0r, hr, h0c, hc⟩, hcell, hst⟩ := isValidMove_parts hv
  have hcancel := setCell_cancel m.board row col m.currentPlayer hcell
  cases hline : checkWinLine (setCell m.board row col m.currentPlayer) m.boardSize row col with
  | some line =>
    rw [makeMove_won_eq hv hline]
    rw [@undoMove_terminal_eq
      ({ placed m row col now with
          gameStatus := Status.won
          winner := some m.currentPlayer
          winLine := line })
      m.moveHistory ⟨row, col, m.currentPlayer, now⟩ rfl (by simp [placed])]
    ext <;> simp [placed, hcancel, hst.symm, hclean.1.symm, hclean.2.symm]
  | none =>
    by_cases hfull : m.moveCount + 1 = m.boardSize * m.boardSize
    · rw [makeMove_draw_eq hv hline hfull]
      rw [@undoMove_terminal_eq
        ({ placed m row col now with gameStatus := Status.draw })
        m.moveHistory ⟨row, col, m.currentPlayer, now⟩ rfl (by simp [placed])]
      ext <;> simp [placed, hcancel, hst.symm, hclean.1.symm, hclean.2.symm]
    · rw [makeMove_step_eq hv hline hfull]
      rw [@undoMove_playing_eq
        ({ placed m row col now with
            currentPlayer := if m.currentPlayer = 1 then 2 else 1 })
        m.moveHistory ⟨row, col, m.currentPlayer, now⟩ rfl hst]
      ext <;> simp [placed, hcancel]

/-- C1: on every reachable state, a legal `makeMove` followed immediately by
`undoMove` restores board, turn, move count and status (with winner and
winning line) exactly. -/
theorem makeMove_undoMove_roundtrip (m : GameModel) (row col now : Int)
    (hreach : Reachable m) (hv : isValidMove m row col = true) :
    (undoMove (makeMove m row col now).1).1.board = m.board ∧
    (undoMove (makeMove m row col now).1).1.currentPlayer = m.currentPlayer ∧
    (undoMove (makeMove m row col now).1).1.moveCount = m.moveCount ∧
    (undoMove (makeMove m row col now).1).1.gameStatus = m.gameStatus ∧
    (undoMove (makeMove m row col now).1).1.winner = m.winner ∧
    (undoMove (makeMove m row col now).1).1.winLine = m.winLine := by
  have hinv := reachable_inv hreach
  have hst := (isValidMove_parts hv).2.2
  have hclean := hinv.clean hst
  rw [undo_makeMove hv hclean]
  exact ⟨rfl, rfl, rfl, rfl, rfl, rfl⟩

/-! ## Rules-engine claims: configuration, draw, getCell, winning line -/

/-- C5 counterexample: configuring an invalid size (14) is a silent no-op —
the state is returned unchanged and no error value of any kind is produced,
contradicting the claimed `InvalidConfiguration` result. -/
theorem setBoardSize_invalid_counterexample :
    setBoardSize GameModel.init 14 = GameModel.init := by
  unfold setBoardSize
  rw [if_neg]
  rintro (h | h) <;> simp at h

/-- C5 (amended): for sizes other than 15/19 `setBoardSize` leaves the model
unchanged (silent no-op, no error); for 15/19 on a fresh model it installs an
empty size×size board with first turn PlayerA and status InProgress. -/
theorem setBoardSize_spec :
    (∀ (m : GameModel) (size : Int), size ≠ 15 → size ≠ 19 → setBoardSize m size = m) ∧
    (∀ size : Int, size = 15 ∨ size = 19 →
      (setBoardSize GameModel.init size).boardSize = size ∧
      (setBoardSize GameModel.init size).board = emptyBoard size ∧
      (setBoardSize GameModel.init size).currentPlayer = 1 ∧
      (setBoardSize GameModel.init size).gameStatus = Status.playing) := by
  constructor
  · intro m size h15 h19
    unfold setBoardSize
    rw [if_neg]
    rintro (h | h)
    · exact h15 h
    · exact h19 h
  · intro size hs
    unfold setBoardSize
    rw [if_pos hs]
    exact ⟨rfl, rfl, rfl, rfl⟩

/-- Witness for the amended C5 at sizes 14 and 19. -/
theorem setBoardSize_spec_witness :
    setBoardSize GameModel.init 14 = GameModel.init ∧
    (setBoardSize GameModel.init 19).boardSize = 19 :=
  ⟨setBoardSize_spec.1 GameModel.init 14 (by decide) (by decide),
   (setBoardSize_spec.2 19 (Or.inr rfl)).1⟩

/-- C6: on reachable states, the status is Draw exactly when the board is
full (move count = size²) and no win was detected at the last played cell. -/
theorem draw_iff (m : GameModel) (h : Reachable m) :
    m.gameStatus = Status.draw ↔
      (m.moveCount = m.boardSize * m.boardSize ∧
        ∃ e : HistEntry, m.moveHistory.getLast? = some e ∧
          checkWinLine m.board m.boardSize e.row e.col = none) := by
  have hinv := reachable_inv h
  constructor
  · exact hinv.draw_facts
  · rintro ⟨hfull, e, hlast, hnone⟩
    cases hstatus : m.gameStatus with
    | playing => exact absurd hfull (hinv.not_full hstatus)
    | won =>
      rcases hinv.won_facts hstatus with ⟨e2, hlast2, _, _, _, hsome⟩
      rw [hlast] at hlast2
      have he : e = e2 := by injection hlast2
      rw [← he, hnone] at hsome
      exact absurd hsome (by simp)
    | draw => rfl

/-- Witness for C6 at the fresh board. -/
theorem draw_iff_witness :
    GameModel.init.gameStatus = Status.draw ↔
      (GameModel.init.moveCount = GameModel.init.boardSize * GameModel.init.boardSize ∧
        ∃ e : HistEntry, GameModel.init.moveHistory.getLast? = some e ∧
          checkWinLine GameModel.init.board GameModel.init.boardSize e.row e.col = none) :=
  draw_iff GameModel.init Reachable.base

/-- C10: `getCell` is total on all integer pairs: out of bounds it returns the
sentinel `-1`, in bounds it returns the stored cell, and on reachable states
the stored cell is one of 0 (empty), 1 (black), 2 (white).  (As a pure
function of the state it cannot throw or mutate.) -/
theorem getCell_spec (m : GameModel) (row col : Int) :
    (m.isValidPosition row col = false → getCell m row col = -1) ∧
    (m.isValidPosition row col = true → getCell m row col = cellAt m.board row col) ∧
    (Reachable m → m.isValidPosition row col = true →
      getCell m row col = 0 ∨ getCell m row col = 1 ∨ getCell m row col = 2) := by
  refine ⟨?_, ?_, ?_⟩
  · intro h
    simp [getCell, h]
  · intro h
    simp [getCell, h]
  · intro hreach hvalid
    have hinv := reachable_inv hreach
    have hbnd : ((0 ≤ row ∧ row < m.boardSize) ∧ 0 ≤ col) ∧ col < m.boardSize := by
      simpa [GameModel.isValidPosition, validPos] using hvalid
    obtain ⟨hbr, hbc⟩ := bounds_of_valid hinv hbnd.1.1.1 hbnd.1.1.2 hbnd.1.2 hbnd.2
    have hrowmem : m.board.getD row.toNat [] ∈ m.board := by
      rw [List.getD_eq_getElem _ _ hbr]
      exact List.getElem_mem hbr
    have hvm : (m.board.getD row.toNat []).getD col.toNat 0 ∈ m.board.getD row.toNat [] := by
      rw [List.getD_eq_getElem _ _ hbc]
      exact List.getElem_mem hbc
    have hcell := hinv.cells_range _ hrowmem _ hvm
    have hgc : getCell m row col = cellAt m.board row col := by simp [getCell, hvalid]
    rw [hgc]
    exact hcell


/-- Witness for C10 in and out of bounds on the fresh board. -/
theorem getCell_spec_witness :
    getCell GameModel.init (-1) 0 = -1 ∧
    (getCell GameModel.init 2 3 = 0 ∨ getCell GameModel.init 2 3 = 1 ∨
      getCell GameModel.init 2 3 = 2) :=
  ⟨(getCell_spec GameModel.init (-1) 0).1 (by decide),
   (getCell_spec GameModel.init 2 3).2.2 Reachable.base (by decide)⟩

/-- Every cell of a `checkWin` line holds the scanned player's stone
(the scan only extends over cells equal to `player`). -/
theorem lineThrough_cells (b : Board) (size player row col : Int) (d : Int × Int)
    (hcenter : cellAt b row col = player) :
    ∀ p ∈ lineThrough b size player row col d, cellAt b p.1 p.2 = player := by
  intro p hp
  unfold lineThrough at hp
  rcases List.mem_append.1 hp with h | h
  · exact (walkLine_cells b size player _ _ _ _ _ p (List.mem_reverse.1 h)).1
  · rcases List.mem_cons.1 h with rfl | h2
    · exact hcenter
    · exact (walkLine_cells b size player _ _ _ _ _ p h2).1

/-- C2: on every reachable Won state, the winning line has length exactly 5,
all its cells hold the winner's stone, it is an arithmetic progression with
unit step along one of the four directions, and it consists of the first five
cells (negative side first, then positive) of the scanned run through the
last played cell. -/
theorem won_winLine_spec (m : GameModel) (hreach : Reachable m)
    (hw : m.gameStatus = Status.won) :
    m.winLine.length = 5 ∧
    (∃ w : Int, m.winner = some w ∧ ∀ p ∈ m.winLine, cellAt m.board p.1 p.2 = w) ∧
    (∃ d ∈ directions, ∃ r0 c0 : Int,
      m.winLine = (List.range 5).map
        (fun (j : Nat) => (r0 + (j : Int) * d.1, c0 + (j : Int) * d.2))) ∧
    (∃ e : HistEntry, m.moveHistory.getLast? = some e ∧ ∃ d ∈ directions,
      5 ≤ (lineThrough m.board m.boardSize (cellAt m.board e.row e.col) e.row e.col d).length ∧
      m.winLine =
        (lineThrough m.board m.boardSize (cellAt m.board e.row e.col) e.row e.col d).take 5) := by
  have hinv := reachable_inv hreach
  rcases hinv.won_facts hw with ⟨e, hlast, hwin, hpr, hcell, hsome⟩
  rcases checkWinLine_spec _ _ _ _ _ hsome with ⟨d, hd, hlen, hline⟩
  refine ⟨?_, ?_, ?_, ⟨e, hlast, d, hd, hlen, hline⟩⟩
  · rw [hline, List.length_take]
    omega
  · refine ⟨e.player, hwin, ?_⟩
    intro p hp
    rw [hline] at hp
    have hsub := List.take_subset 5 _ hp
    have hcells := lineThrough_cells m.board m.boardSize (cellAt m.board e.row e.col)
      e.row e.col d rfl p hsub
    rw [hcell] at hcells
    exact hcells
  · rcases lineThrough_shape m.board m.boardSize (cellAt m.board e.row e.col)
      e.row e.col d with ⟨kn, kp, hshape⟩
    have h5 : 5 ≤ kn + 1 + kp := by
      rw [hshape] at hlen
      simpa using hlen
    refine ⟨d, hd, e.row - (kn : Int) * d.1, e.col - (kn : Int) * d.2, ?_⟩
    rw [hline, hshape, ← List.map_take, List.take_range, inf_eq_left.2 h5]
    refine List.map_congr_left ?_
    intro j _
    simp only [Prod.mk.injEq]
    constructor <;> ring

/-- Witness helper: a concrete won position (vertical five for black). -/
def demoWon : GameModel :=
  [((7 : Int), (7 : Int)), (7, 8), (8, 7), (8, 8), (9, 7), (9, 8), (10, 7), (11, 8),
    (11, 7)].foldl (fun m rc => (makeMove m rc.1 rc.2 0).1) GameModel.init

theorem demoWon_reachable : Reachable demoWon :=
  Reachable.step 11 7 0
    (Reachable.step 11 8 0
      (Reachable.step 10 7 0
        (Reachable.step 9 8 0
          (Reachable.step 9 7 0
            (Reachable.step 8 8 0
              (Reachable.step 8 7 0
                (Reachable.step 7 8 0
                  (Reachable.step 7 7 0 Reachable.base (by decide))
                  (by decide))
                (by decide))
              (by decide))
            (by decide))
          (by decide))
        (by decide))
      (by decide))
    (by decide)

/-- Witness for C2 at a concrete reachable won state. -/
theorem won_winLine_spec_witness : demoWon.winLine.length = 5 :=
  (won_winLine_spec demoWon demoWon_reachable (by decide)).1

/-! ## Static evaluation of a window (C8) -/

/-- The five cells of the evaluation window starting at `(row, col)` in
direction `(dR, dC)`. -/
def windowCells (row col dR dC : Int) : List (Int × Int) :=
  (List.range 5).map (fun (i : Nat) => (row + (i : Int) * dR, col + (i : Int) * dC))

/-- A window cell holding the evaluated player's own stone. -/
def ownCell (b : Board) (size player : Int) (p : Int × Int) : Bool :=
  validPos size p.1 p.2 && cellAt b p.1 p.2 == player

/-- A blocked window cell: off-board, or holding a stone that is neither the
player's nor empty. -/
def blockedCell (b : Board) (size player : Int) (p : Int × Int) : Bool :=
  !(validPos size p.1 p.2) || (cellAt b p.1 p.2 != player && cellAt b p.1 p.2 != 0)

/-- An empty in-board window cell (not counted as the player's own). -/
def emptyCell (b : Board) (size player : Int) (p : Int × Int) : Bool :=
  validPos size p.1 p.2 && cellAt b p.1 p.2 != player && cellAt b p.1 p.2 == 0

/-- One iteration of the `evaluateLine` classification loop, as a function of
the visited cell. -/
def evalStep (b : Board) (size player : Int) (acc : Int × Int × Int) (p : Int × Int) :
    Int × Int × Int :=
  if p.1 < 0 ∨ size ≤ p.1 ∨ p.2 < 0 ∨ size ≤ p.2 then (acc.1, acc.2.1 + 1, acc.2.2)
  else if cellAt b p.1 p.2 = player then (acc.1 + 1, acc.2.1, acc.2.2)
  else if cellAt b p.1 p.2 = 0 then (acc.1, acc.2.1, acc.2.2 + 1)
  else (acc.1, acc.2.1 + 1, acc.2.2)

theorem evalStep_fold (b : Board) (size player : Int) :
    ∀ (l : List (Int × Int)) (a1 a2 a3 : Int),
      l.foldl (evalStep b size player) (a1, a2, a3) =
        (a1 + (l.countP (ownCell b size player) : Int),
         a2 + (l.countP (blockedCell b size player) : Int),
         a3 + (l.countP (emptyCell b size player) : Int)) := by
  intro l
  induction l with
  | nil => intro a1 a2 a3; simp
  | cons p t ih =>
    intro a1 a2 a3
    rw [List.foldl_cons]
    by_cases hb : p.1 < 0 ∨ size ≤ p.1 ∨ p.2 < 0 ∨ size ≤ p.2
    · have hvp : validPos size p.1 p.2 = false := by
        simp only [validPos]
        by_contra hcon
        simp only [Bool.not_eq_false, Bool.and_eq_true, decide_eq_true_eq] at hcon
        omega
      have ho : ownCell b size player p = false := by simp [ownCell, hvp]
      have hbl : blockedCell b size player p = true := by simp [blockedCell, hvp]
      have he : emptyCell b size player p = false := by simp [emptyCell, hvp]
      rw [show evalStep b size player (a1, a2, a3) p = (a1, a2 + 1, a3) from by
        simp [evalStep, hb]]
      rw [ih]
      simp only [List.countP_cons, ho, hbl, he, if_true, if_false, Bool.false_eq_true,
        Prod.mk.injEq]
      refine ⟨by push_cast; ring, by push_cast; ring, by push_cast; ring⟩
    · have hvp : validPos size p.1 p.2 = true := by
        simp only [validPos, Bool.and_eq_true, decide_eq_true_eq]
        omega
      by_cases hown : cellAt b p.1 p.2 = player
      · have ho : ownCell b size player p = true := by simp [ownCell, hvp, hown]
        have hbl : blockedCell b size player p = false := by simp [blockedCell, hvp, hown]
        have he : emptyCell b size player p = false := by simp [emptyCell, hvp, hown]
        rw [show evalStep b size player (a1, a2, a3) p = (a1 + 1, a2, a3) from by
          simp [evalStep, hb, hown]]
        rw [ih]
        simp only [List.countP_cons, ho, hbl, he, if_true, if_false, Bool.false_eq_true,
          Prod.mk.injEq]
        refine ⟨by push_cast; ring, by push_cast; ring, by push_cast; ring⟩
      · by_cases hemp : cellAt b p.1 p.2 = 0
        · have hzp : ¬(0 : Int) = player := fun hh => hown (by rw [hemp, ← hh])
          have ho : ownCell b size player p = false := by simp [ownCell, hvp, hown]
          have hbl : blockedCell b size player p = false := by
            simp [blockedCell, hvp, hemp]
          have he : emptyCell b size player p = true := by
            simp [emptyCell, hvp, hown, hemp, hzp]
          rw [show evalStep b size player (a1, a2, a3) p = (a1, a2, a3 + 1) from by
            simp [evalStep, hb, hown, hemp, hzp]]
          rw [ih]
          simp only [List.countP_cons, ho, hbl, he, if_true, if_false, Bool.false_eq_true,
            Prod.mk.injEq]
          refine ⟨by push_cast; ring, by push_cast; ring, by push_cast; ring⟩
        · have ho : ownCell b size player p = false := by simp [ownCell, hvp, hown]
          have hbl : blockedCell b size player p = true := by
            simp [blockedCell, hvp, hown, hemp]
          have he : emptyCell b size player p = false := by simp [emptyCell, hvp, hemp]
          rw [show evalStep b size player (a1, a2, a3) p = (a1, a2 + 1, a3) from by
            simp [evalStep, hb, hown, hemp]]
          rw [ih]
          simp only [List.countP_cons, ho, hbl, he, if_true, if_false, Bool.false_eq_true,
            Prod.mk.injEq]
          refine ⟨by push_cast; ring, by push_cast; ring, by push_cast; ring⟩

/-- A concrete 5×5 board with three black stones at (0,2), (0,3), (0,4). -/
def evalDemoBoard : Board :=
  [[0, 0, 1, 1, 1], [0, 0, 0, 0, 0], [0, 0, 0, 0, 0], [0, 0, 0, 0, 0], [0, 0, 0, 0, 0]]

/-- C8: `evaluateLine` depends only on the classification of the five window
cells: it returns 0 as soon as two cells are blocked (off-board or foreign
stone), and otherwise the fixed table keyed by the player's own-stone count,
halved-tier when a single block exists.  The two concrete scenarios: 3 own
stones, 2 empty, 0 blocks score 500; 3 own stones with one off-board block
score 100. -/
theorem evaluateLine_spec :
    (∀ (b : Board) (size row col dR dC player : Int),
      evaluateLine b size row col dR dC player =
        (if (2 : Int) ≤ ((windowCells row col dR dC).countP (blockedCell b size player) : Int)
         then 0
         else if ((windowCells row col dR dC).countP (ownCell b size player) : Int) = 5
         then 10000
         else if ((windowCells row col dR dC).countP (ownCell b size player) : Int) = 4
         then (if ((windowCells row col dR dC).countP (blockedCell b size player) : Int) = 0
               then 5000 else 1000)
         else if ((windowCells row col dR dC).countP (ownCell b size player) : Int) = 3
         then (if ((windowCells row col dR dC).countP (blockedCell b size player) : Int) = 0
               then 500 else 100)
         else if ((windowCells row col dR dC).countP (ownCell b size player) : Int) = 2
         then (if ((windowCells row col dR dC).countP (blockedCell b size player) : Int) = 0
               then 50 else 10)
         else if ((windowCells row col dR dC).countP (ownCell b size player) : Int) = 1
         then (if ((windowCells row col dR dC).countP (blockedCell b size player) : Int) = 0
               then 5 else 1)
         else 0)) ∧
    evaluateLine evalDemoBoard 5 0 0 0 1 1 = 500 ∧
    evaluateLine evalDemoBoard 5 0 1 0 1 1 = 100 := by
  refine ⟨?_, by decide, by decide⟩
  intro b size row col dR dC player
  have h1 : (List.range 5).foldl
      (fun (acc : Int × Int × Int) (i : Nat) =>
        let r := row + (i : Int) * dR
        let c := col + (i : Int) * dC
        if r < 0 ∨ size ≤ r ∨ c < 0 ∨ size ≤ c then (acc.1, acc.2.1 + 1, acc.2.2)
        else if cellAt b r c = player then (acc.1 + 1, acc.2.1, acc.2.2)
        else if cellAt b r c = 0 then (acc.1, acc.2.1, acc.2.2 + 1)
        else (acc.1, acc.2.1 + 1, acc.2.2)) ((0 : Int), (0 : Int), (0 : Int)) =
      (windowCells row col dR dC).foldl (evalStep b size player) (0, 0, 0) := by
    unfold windowCells
    rw [List.foldl_map]
    rfl
  unfold evaluateLine
  rw [h1, evalStep_fold]
  simp only [zero_add]

/-! ## Move selection: the priority steps (C9, C7) -/

/-- `addRandomness` with a single alternative never substitutes: the
`alternativeMoves.length > 1` test fails. -/
theorem addRandomness_singleton (ai : AIPlayer) (q1 q2 : ℚ) (bm : Int × Int) :
    addRandomness ai q1 q2 bm [bm] = some bm := by
  unfold addRandomness
  rw [if_neg]
  rintro ⟨_, h⟩
  simp at h

/-- What a successful `findWinningMove` returns: an empty in-bounds cell whose
occupation by `player` wins. -/
theorem findWinningMove_some {b : Board} {size player : Int} {w : Int × Int}
    (h : findWinningMove b size player = some w) :
    validPos size w.1 w.2 = true ∧ cellAt b w.1 w.2 = 0 ∧
      AIPlayer.checkWin (setCell b w.1 w.2 player) size w.1 w.2 player = true := by
  unfold findWinningMove at h
  rcases List.exists_of_findSome?_eq_some h with ⟨row, hrow, hinner⟩
  rcases List.exists_of_findSome?_eq_some hinner with ⟨col, hcol, hcell⟩
  have hrb := mem_intRange.1 hrow
  have hcb := mem_intRange.1 hcol
  by_cases h0 : cellAt b row col = 0
  · rw [if_pos h0] at hcell
    by_cases hcw : AIPlayer.checkWin (setCell b row col player) size row col player = true
    · rw [if_pos hcw] at hcell
      have hw : w = (row, col) := by injection hcell with h2; exact h2.symm
      subst hw
      refine ⟨?_, h0, hcw⟩
      simp only [validPos, Bool.and_eq_true, decide_eq_true_eq]
      omega
    · rw [if_neg hcw] at hcell
      cases hcell
  · rw [if_neg h0] at hcell
    cases hcell

/-- When `findWinningMove` finds nothing, no empty in-bounds cell wins. -/
theorem findWinningMove_none {b : Board} {size player : Int}
    (h : findWinningMove b size player = none) :
    ∀ r c : Int, validPos size r c = true → cellAt b r c = 0 →
      AIPlayer.checkWin (setCell b r c player) size r c player = false := by
  intro r c hv h0
  unfold findWinningMove at h
  rw [List.findSome?_eq_none_iff] at h
  have hb : ((0 ≤ r ∧ r < size) ∧ 0 ≤ c) ∧ c < size := by
    simpa [validPos] using hv
  have hrmem : r ∈ intRange 0 (size - 1) := mem_intRange.2 ⟨by omega, by omega⟩
  have hcmem : c ∈ intRange 0 (size - 1) := mem_intRange.2 ⟨by omega, by omega⟩
  have hinner := h r hrmem
  rw [List.findSome?_eq_none_iff] at hinner
  have hcell := hinner c hcmem
  rw [if_pos h0] at hcell
  by_contra hcon
  rw [Bool.not_eq_false] at hcon
  rw [if_pos hcon] at hcell
  cases hcell

/-- C9: whenever `getBestMove` selects in priority step 1 (immediate win) or
step 2 (immediate block), the returned move is exactly the found cell for
every value of the randomization draws, because `addRandomness` is called
with a singleton alternatives list. -/
theorem getBestMove_priority_randomness (ai : AIPlayer) :
    (∀ (q1 q2 : ℚ) (bm : Int × Int), addRandomness ai q1 q2 bm [bm] = some bm) ∧
    (∀ (m : GameModel) (q1 q2 q3 q4 : ℚ) (w : Int × Int),
      findWinningMove m.board m.boardSize ai.player = some w →
      getBestMove ai m q1 q2 q3 q4 = some w) ∧
    (∀ (m : GameModel) (q1 q2 q3 q4 : ℚ) (bmv : Int × Int),
      findWinningMove m.board m.boardSize ai.player = none →
      findWinningMove m.board m.boardSize ai.opponent = some bmv →
      getBestMove ai m q1 q2 q3 q4 = some bmv) := by
  refine ⟨addRandomness_singleton ai, ?_, ?_⟩
  · intro m q1 q2 q3 q4 w hw
    unfold getBestMove
    rw [hw]
    exact addRandomness_singleton ai q1 q2 w
  · intro m q1 q2 q3 q4 bmv hnone hblock
    unfold getBestMove
    rw [hnone, hblock]
    exact addRandomness_singleton ai q1 q2 bmv

/-- A 5×5 position where white (2) can complete five at (0,0). -/
def winDemoModel : GameModel :=
  { GameModel.init with
      boardSize := 5
      board := [[0, 2, 2, 2, 2], [0, 0, 0, 0, 0], [0, 0, 0, 0, 0], [0, 0, 0, 0, 0],
        [0, 0, 0, 0, 0]] }

/-- A 5×5 position where black (1) threatens five at (0,0), to be blocked. -/
def blockDemoModel : GameModel :=
  { GameModel.init with
      boardSize := 5
      board := [[0, 1, 1, 1, 1], [0, 0, 0, 0, 0], [0, 0, 0, 0, 0], [0, 0, 0, 0, 0],
        [0, 0, 0, 0, 0]] }

/-- Witness for C9: a concrete immediate win and a concrete immediate block,
each returned unchanged under a randomization draw that would otherwise fire. -/
theorem getBestMove_priority_randomness_witness :
    getBestMove (mkAIPlayer Difficulty.easy) winDemoModel (1 / 5) (9 / 10) 0 0
        = some (0, 0) ∧
    getBestMove (mkAIPlayer Difficulty.easy) blockDemoModel (1 / 5) (9 / 10) 0 0
        = some (0, 0) :=
  ⟨(getBestMove_priority_randomness (mkAIPlayer Difficulty.easy)).2.1 winDemoModel
      (1 / 5) (9 / 10) 0 0 (0, 0) (by decide),
   (getBestMove_priority_randomness (mkAIPlayer Difficulty.easy)).2.2 blockDemoModel
      (1 / 5) (9 / 10) 0 0 (0, 0) (by decide) (by decide)⟩

/-- An open four for `player`: four consecutive stones in a direction with
both run ends on the board and empty. -/
def openFour (b : Board) (size player : Int) : Prop :=
  ∃ d ∈ directions, ∃ r c : Int,
    (∀ i : Nat, i < 4 →
      validPos size (r + i * d.1) (c + i * d.2) = true ∧
        cellAt b (r + i * d.1) (c + i * d.2) = player) ∧
    validPos size (r - d.1) (c - d.2) = true ∧ cellAt b (r - d.1) (c - d.2) = 0 ∧
    validPos size (r + 4 * d.1) (c + 4 * d.2) = true ∧
      cellAt b (r + 4 * d.1) (c + 4 * d.2) = 0

/-- The AI `checkWin` run counter counts at least `k` when `k` consecutive
cells hold the player's stone. -/
theorem countRun_ge (b : Board) (size player dR dC : Int) :
    ∀ (k fuel : Nat) (r c : Int), k ≤ fuel →
      (∀ i : Nat, i < k →
        validPos size (r + i * dR) (c + i * dC) = true ∧
          cellAt b (r + i * dR) (c + i * dC) = player) →
      k ≤ countRun b size player dR dC fuel r c := by
  intro k
  induction k with
  | zero => intro fuel r c _ _; omega
  | succ k ih =>
    intro fuel r c hkf hcells
    cases fuel with
    | zero => omega
    | succ f =>
      have h0 := hcells 0 (by omega)
      simp only [Nat.cast_zero, zero_mul, add_zero] at h0
      rw [countRun]
      rw [if_pos (by simp [h0.1, h0.2])]
      have htail := ih f (r + dR) (c + dC) (by omega) ?_
      · omega
      · intro i hi
        have := hcells (i + 1) (by omega)
        have harg1 : r + dR + (i : Int) * dR = r + ((i : Int) + 1) * dR := by ring
        have harg2 : c + dC + (i : Int) * dC = c + ((i : Int) + 1) * dC := by ring
        rw [harg1, harg2]
        simpa [Nat.cast_add] using this

/-- C7: on an InProgress board with an open four for the engine player (2)
and no immediate winning cell for the opponent (1), `getBestMove` returns a
cell whose occupation completes the engine player's five-in-a-row, whatever
the difficulty and randomization draws: the priority-1 scan short-circuits. -/
theorem getBestMove_open_four (diff : Difficulty) (m : GameModel) (q1 q2 q3 q4 : ℚ)
    (hst : m.gameStatus = Status.playing)
    (hof : openFour m.board m.boardSize 2)
    (hnoopp : findWinningMove m.board m.boardSize 1 = none) :
    ∃ mv : Int × Int, getBestMove (mkAIPlayer diff) m q1 q2 q3 q4 = some mv ∧
      isValidMove m mv.1 mv.2 = true ∧
      AIPlayer.checkWin (setCell m.board mv.1 mv.2 2) m.boardSize mv.1 mv.2 2 = true := by
  rcases hof with ⟨d, hd, r, c, hstones, hnegv, hnege, hposv, hpose⟩
  have hsize4 : (4 : Int) ≤ m.boardSize := by
    have h0 := (hstones 0 (by omega)).1
    have h3 := (hstones 3 (by omega)).1
    simp only [validPos, Bool.and_eq_true, decide_eq_true_eq] at h0 h3
    have hd4 : d = ((0 : Int), (1 : Int)) ∨ d = (1, 0) ∨ d = (1, 1) ∨ d = (1, -1) := by
      simpa [directions] using hd
    rcases hd4 with rfl | rfl | rfl | rfl <;> simp at h0 h3 <;> omega
  have hposb : ((0 ≤ r + 4 * d.1 ∧ r + 4 * d.1 < m.boardSize) ∧ 0 ≤ c + 4 * d.2) ∧
      c + 4 * d.2 < m.boardSize := by
    simpa [validPos] using hposv
  have hkeep : ∀ i : Nat, i < 4 →
      cellAt (setCell m.board (r + 4 * d.1) (c + 4 * d.2) 2)
        (r + i * d.1) (c + i * d.2) = 2 := by
    intro i hi
    obtain ⟨hvi, hci⟩ := hstones i hi
    have hvib : ((0 ≤ r + i * d.1 ∧ r + i * d.1 < m.boardSize) ∧ 0 ≤ c + i * d.2) ∧
        c + i * d.2 < m.boardSize := by
      simpa [validPos] using hvi
    rw [cellAt_setCell_ne]
    · exact hci
    · by_contra hcon
      push_neg at hcon
      obtain ⟨hre, hce⟩ := hcon
      have heq1 : r + 4 * d.1 = r + i * d.1 := by omega
      have heq2 : c + 4 * d.2 = c + i * d.2 := by omega
      rw [← heq1, ← heq2] at hci
      rw [hpose] at hci
      exact absurd hci (by decide)
  have hwin : AIPlayer.checkWin (setCell m.board (r + 4 * d.1) (c + 4 * d.2) 2)
      m.boardSize (r + 4 * d.1) (c + 4 * d.2) 2 = true := by
    unfold AIPlayer.checkWin
    rw [List.any_eq_true]
    refine ⟨d, hd, ?_⟩
    have hneg : 4 ≤ countRun (setCell m.board (r + 4 * d.1) (c + 4 * d.2) 2)
        m.boardSize 2 (-d.1) (-d.2) m.boardSize.toNat
        (r + 4 * d.1 - d.1) (c + 4 * d.2 - d.2) := by
      apply countRun_ge
      · omega
      · intro i hi
        have h3i := hstones (3 - i) (by omega)
        have harg1 : r + 4 * d.1 - d.1 + (i : Int) * -d.1 =
            r + ((3 - i : Nat) : Int) * d.1 := by
          have hcast : ((3 - i : Nat) : Int) = 3 - (i : Int) := by omega
          rw [hcast]
          ring
        have harg2 : c + 4 * d.2 - d.2 + (i : Int) * -d.2 =
            c + ((3 - i : Nat) : Int) * d.2 := by
          have hcast : ((3 - i : Nat) : Int) = 3 - (i : Int) := by omega
          rw [hcast]
          ring
        rw [harg1, harg2]
        exact ⟨h3i.1, hkeep (3 - i) (by omega)⟩
    simp only [decide_eq_true_eq]
    have hpos0 : 0 ≤ countRun (setCell m.board (r + 4 * d.1) (c + 4 * d.2) 2)
        m.boardSize 2 d.1 d.2 m.boardSize.toNat
        (r + 4 * d.1 + d.1) (c + 4 * d.2 + d.2) := Nat.zero_le _
    omega
  cases hfw : findWinningMove m.board m.boardSize 2 with
  | none =>
    exfalso
    have hcontra := findWinningMove_none hfw (r + 4 * d.1) (c + 4 * d.2) hposv hpose
    rw [hwin] at hcontra
    exact absurd hcontra (by decide)
  | some w =>
    obtain ⟨hwv, hw0, hww⟩ := findWinningMove_some hfw
    refine ⟨w, ?_, ?_, hww⟩
    · unfold getBestMove
      have hp2 : (mkAIPlayer diff).player = 2 := rfl
      rw [hp2, hfw]
      exact addRandomness_singleton _ q1 q2 w
    · simp only [isValidMove, GameModel.isValidPosition, Bool.and_eq_true, beq_iff_eq]
      exact ⟨⟨hwv, hw0⟩, hst⟩

/-- Witness data for C7: a 6×6 board with an open four for white in row 0. -/
def openFourModel : GameModel :=
  { GameModel.init with
      boardSize := 6
      board := [[0, 2, 2, 2, 2, 0], [0, 0, 0, 0, 0, 0], [0, 0, 0, 0, 0, 0],
        [0, 0, 0, 0, 0, 0], [0, 0, 0, 0, 0, 0], [0, 0, 0, 0, 0, 0]] }

/-- Witness for C7 at the concrete open-four position. -/
theorem getBestMove_open_four_witness :
    ∃ mv : Int × Int,
      getBestMove (mkAIPlayer Difficulty.hard) openFourModel (1 / 5) (9 / 10) 0 0
          = some mv ∧
      isValidMove openFourModel mv.1 mv.2 = true ∧
      AIPlayer.checkWin (setCell openFourModel.board mv.1 mv.2 2)
        openFourModel.boardSize mv.1 mv.2 2 = true :=
  getBestMove_open_four Difficulty.hard openFourModel (1 / 5) (9 / 10) 0 0 (by decide)
    ⟨(0, 1), by decide, 0, 1,
      by
        intro i hi
        interval_cases i <;> exact ⟨by decide, by decide⟩,
      by decide, by decide, by decide, by decide⟩
    (by decide)

/-! ## Search-state restoration infrastructure (C3, C4)

The search threads the one Rules Engine state through trial moves.  The only
field a make/undo pair can fail to restore is `startTime`, so all loop
invariants are phrased modulo a `startTime` overwrite. -/

/-- Overwrite only the `startTime` field. -/
def upSt (m : GameModel) (st : Option Int) : GameModel := { m with startTime := st }

theorem upSt_self (m : GameModel) : upSt m m.startTime = m := rfl

theorem upSt_upSt (m : GameModel) (st1 st2 : Option Int) :
    upSt (upSt m st1) st2 = upSt m st2 := rfl

theorem inv_upSt {m : GameModel} (st : Option Int) (hinv : Inv m) : Inv (upSt m st) :=
  ⟨hinv.size_ok, hinv.rows_len, hinv.cols_len, hinv.cells_range, hinv.player_range,
    hinv.count_eq, hinv.clean, hinv.not_full, hinv.won_facts, hinv.draw_facts⟩

theorem inv_setPlayer {m : GameModel} {p : Int} (hp : p = 1 ∨ p = 2) (hinv : Inv m) :
    Inv { m with currentPlayer := p } :=
  ⟨hinv.size_ok, hinv.rows_len, hinv.cols_len, hinv.cells_range, hp,
    hinv.count_eq, hinv.clean, hinv.not_full,
    fun h => by
      rcases hinv.won_facts h with ⟨e, h1, h2, h3, h4, h5⟩
      exact ⟨e, h1, h2, h3, h4, h5⟩,
    fun h => hinv.draw_facts h⟩

theorem undoMove_none_eq {m : GameModel} (h : m.moveHistory.getLast? = none) :
    undoMove m = (m, false) := by
  unfold undoMove
  rw [h]

/-- `makeMove` commutes with a `startTime` overwrite: the result differs only
in `startTime`. -/
theorem makeMove_upSt (m : GameModel) (st : Option Int) (row col now : Int) :
    (makeMove (upSt m st) row col now).1 =
      upSt (makeMove m row col now).1
        (if isValidMove m row col = true then
          (if m.moveCount + 1 = 1 then some now else st) else st) := by
  by_cases hv : isValidMove m row col = true
  · have hv2 : isValidMove (upSt m st) row col = true := hv
    rw [if_pos hv]
    cases hline : checkWinLine (setCell m.board row col m.currentPlayer) m.boardSize
        row col with
    | some line =>
      rw [makeMove_won_eq hv hline,
        @makeMove_won_eq (upSt m st) row col now line hv2 hline]
      ext <;> simp [placed, upSt]
    | none =>
      by_cases hfull : m.moveCount + 1 = m.boardSize * m.boardSize
      · rw [makeMove_draw_eq hv hline hfull,
          @makeMove_draw_eq (upSt m st) row col now hv2 hline hfull]
        ext <;> simp [placed, upSt]
      · rw [makeMove_step_eq hv hline hfull,
          @makeMove_step_eq (upSt m st) row col now hv2 hline hfull]
        ext <;> simp [placed, upSt]
  · have hvf : isValidMove m row col = false := by
      rw [Bool.not_eq_true] at hv
      exact hv
    have hvf2 : isValidMove (upSt m st) row col = false := hvf
    rw [makeMove_fail_eq hvf, @makeMove_fail_eq (upSt m st) row col now hvf2,
      if_neg hv]

/-- `undoMove` commutes with a `startTime` overwrite. -/
theorem undoMove_upSt (m : GameModel) (st : Option Int) :
    (undoMove (upSt m st)).1 = upSt (undoMove m).1 st := by
  cases hl : m.moveHistory.getLast? with
  | none =>
    rw [undoMove_none_eq hl, @undoMove_none_eq (upSt m st) hl]
  | some e =>
    have hne : m.moveHistory ≠ [] := by
      intro hcon
      rw [hcon] at hl
      cases hl
    have hdecomp : m.moveHistory = m.moveHistory.dropLast ++ [e] := by
      conv_lhs => rw [← List.dropLast_append_getLast hne]
      congr 1
      have := (List.getLast?_eq_getLast m.moveHistory hne).symm.trans hl
      simpa using this
    by_cases hst2 : m.gameStatus = Status.playing
    · rw [undoMove_playing_eq hdecomp hst2,
        @undoMove_playing_eq (upSt m st) m.moveHistory.dropLast e hdecomp hst2]
      ext <;> simp [upSt]
    · rw [undoMove_terminal_eq hdecomp hst2,
        @undoMove_terminal_eq (upSt m st) m.moveHistory.dropLast e hdecomp hst2]
      ext <;> simp [upSt]

/-- A playing state with invariants has an empty in-bounds cell. -/
theorem empty_of_inv_playing {m : GameModel} (hinv : Inv m)
    (hst : m.gameStatus = Status.playing) :
    ∃ r c : Int, validPos m.boardSize r c = true ∧ cellAt m.board r c = 0 := by
  have hnf := hinv.not_full hst
  have hcnt := hinv.count_eq
  have hle := occupiedCount_le m.board m.boardSize.toNat hinv.cols_len
  rw [hinv.rows_len] at hle
  have hszpos : (0 : Int) ≤ m.boardSize := by
    rcases hinv.size_ok with h | h <;> omega
  have htn : (m.boardSize.toNat : Int) = m.boardSize := Int.toNat_of_nonneg hszpos
  have hlt : occupiedCount m.board < m.boardSize.toNat * m.boardSize.toNat := by
    rcases Nat.lt_or_ge (occupiedCount m.board) (m.boardSize.toNat * m.boardSize.toNat)
      with h | h
    · exact h
    · exfalso
      have heq : occupiedCount m.board = m.boardSize.toNat * m.boardSize.toNat := by omega
      apply hnf
      rw [hcnt, heq]
      push_cast [htn]
      ring
  exact exists_empty_of_count_lt m.board m.boardSize hinv.rows_len hinv.cols_len hlt

/-- On a grid holding both an occupied and an empty in-bounds cell, some
occupied cell has an empty cell within Chebyshev distance 1 (walk from the
empty cell towards the occupied one; the first occupied cell met has an
empty neighbour). -/
theorem exists_adjacent_pair (b : Board) (size : Int)
    (ho : ∃ q : Int × Int, validPos size q.1 q.2 = true ∧ cellAt b q.1 q.2 ≠ 0)
    (he : ∃ p : Int × Int, validPos size p.1 p.2 = true ∧ cellAt b p.1 p.2 = 0) :
    ∃ q p : Int × Int, validPos size q.1 q.2 = true ∧ cellAt b q.1 q.2 ≠ 0 ∧
      validPos size p.1 p.2 = true ∧ cellAt b p.1 p.2 = 0 ∧
      (q.1 - p.1).natAbs ≤ 1 ∧ (q.2 - p.2).natAbs ≤ 1 := by
  obtain ⟨o, hov, hoc⟩ := ho
  obtain ⟨e0, hev0, hec0⟩ := he
  suffices h : ∀ n : Nat, ∀ e : Int × Int, validPos size e.1 e.2 = true →
      cellAt b e.1 e.2 = 0 → (o.1 - e.1).natAbs + (o.2 - e.2).natAbs ≤ n →
      ∃ q p : Int × Int, validPos size q.1 q.2 = true ∧ cellAt b q.1 q.2 ≠ 0 ∧
        validPos size p.1 p.2 = true ∧ cellAt b p.1 p.2 = 0 ∧
        (q.1 - p.1).natAbs ≤ 1 ∧ (q.2 - p.2).natAbs ≤ 1 by
    exact h ((o.1 - e0.1).natAbs + (o.2 - e0.2).natAbs) e0 hev0 hec0 le_rfl
  intro n
  induction n with
  | zero =>
    intro e hev hec hd
    exfalso
    have h1 : o.1 = e.1 ∧ o.2 = e.2 := by omega
    apply hoc
    have heo : o = e := Prod.ext h1.1 h1.2
    rw [heo, hec]
  | succ n ih =>
    intro e hev hec hd
    have hob : ((0 ≤ o.1 ∧ o.1 < size) ∧ 0 ≤ o.2) ∧ o.2 < size := by
      simpa [validPos] using hov
    have heb : ((0 ≤ e.1 ∧ e.1 < size) ∧ 0 ≤ e.2) ∧ e.2 < size := by
      simpa [validPos] using hev
    by_cases h1 : e.1 = o.1 ∧ e.2 = o.2
    · exfalso
      apply hoc
      have heo : o = e := Prod.ext h1.1.symm h1.2.symm
      rw [heo, hec]
    · -- take one grid step from e towards o
      have hstep : ∃ e2 : Int × Int, validPos size e2.1 e2.2 = true ∧
          (e2.1 - e.1).natAbs ≤ 1 ∧ (e2.2 - e.2).natAbs ≤ 1 ∧
          (o.1 - e2.1).natAbs + (o.2 - e2.2).natAbs ≤ n := by
        by_cases hr : e.1 = o.1
        · refine ⟨(e.1, e.2 + (if e.2 < o.2 then 1 else -1)), ?_, by omega, ?_, ?_⟩
          · simp only [validPos, Bool.and_eq_true, decide_eq_true_eq]
            split <;> omega
          · split <;> omega
          · split <;> omega
        · refine ⟨(e.1 + (if e.1 < o.1 then 1 else -1), e.2), ?_, ?_, by omega, ?_⟩
          · simp only [validPos, Bool.and_eq_true, decide_eq_true_eq]
            split <;> omega
          · split <;> omega
          · split <;> omega
      obtain ⟨e2, he2v, hd1, hd2, hd3⟩ := hstep
      by_cases hc2 : cellAt b e2.1 e2.2 = 0
      · exact ih e2 he2v hc2 hd3
      · exact ⟨e2, e, he2v, hc2, hev, hec, by omega, by omega⟩

theorem mem_allCells {size : Int} {p : Int × Int} :
    p ∈ allCells size ↔ 0 ≤ p.1 ∧ p.1 ≤ size - 1 ∧ 0 ≤ p.2 ∧ p.2 ≤ size - 1 := by
  unfold allCells
  rw [List.mem_flatMap]
  constructor
  · rintro ⟨r, hr, hp⟩
    rcases List.mem_map.1 hp with ⟨c, hc, rfl⟩
    have h1 := mem_intRange.1 hr
    have h2 := mem_intRange.1 hc
    exact ⟨h1.1, h1.2, h2.1, h2.2⟩
  · rintro ⟨h1, h2, h3, h4⟩
    exact ⟨p.1, mem_intRange.2 ⟨h1, h2⟩,
      List.mem_map.2 ⟨p.2, mem_intRange.2 ⟨h3, h4⟩, rfl⟩⟩

theorem mem_neighborhood {size radius row col : Int} {p : Int × Int} :
    p ∈ neighborhood size radius row col ↔
      max 0 (row - radius) ≤ p.1 ∧ p.1 ≤ min (size - 1) (row + radius) ∧
      max 0 (col - radius) ≤ p.2 ∧ p.2 ≤ min (size - 1) (col + radius) := by
  unfold neighborhood
  rw [List.mem_flatMap]
  constructor
  · rintro ⟨r, hr, hp⟩
    rcases List.mem_map.1 hp with ⟨c, hc, rfl⟩
    have h1 := mem_intRange.1 hr
    have h2 := mem_intRange.1 hc
    exact ⟨h1.1, h1.2, h2.1, h2.2⟩
  · rintro ⟨h1, h2, h3, h4⟩
    exact ⟨p.1, mem_intRange.2 ⟨h1, h2⟩,
      List.mem_map.2 ⟨p.2, mem_intRange.2 ⟨h3, h4⟩, rfl⟩⟩

/-- Every cell produced by `getRelevantEmptyCells` is empty and in bounds. -/
theorem mem_relevant {m : GameModel} {radius : Int} {p : Int × Int}
    (hp : p ∈ getRelevantEmptyCells m radius) :
    validPos m.boardSize p.1 p.2 = true ∧ cellAt m.board p.1 p.2 = 0 := by
  unfold getRelevantEmptyCells at hp
  split at hp
  · -- center fallback
    have hmem := (mem_foldl_insertUnique _ _ _).1 hp
    rcases hmem with h | h
    · simp at h
    · have := List.mem_filter.1 h
      have hcond := this.2
      simp only [Bool.and_eq_true, beq_iff_eq] at hcond
      exact hcond
  · -- main scan
    have hmem := (mem_foldl_insertUnique _ _ _).1 hp
    rcases hmem with h | h
    · simp at h
    · unfold relevantCandidates at h
      rcases List.mem_flatMap.1 h with ⟨rc, hrc, hin⟩
      split at hin
      · have hf := List.mem_filter.1 hin
        have hcell : cellAt m.board p.1 p.2 = 0 := by
          have := hf.2
          simpa using this
        have hnb := mem_neighborhood.1 hf.1
        refine ⟨?_, hcell⟩
        simp only [validPos, Bool.and_eq_true, decide_eq_true_eq]
        omega
      · simp at hin

/-- On a playing state with the invariant, the candidate list for search is
never empty: either the board is entirely empty and the 3×3 center block is
offered, or an occupied cell with a nearby empty cell exists. -/
theorem relevant_ne_nil {m : GameModel} (hinv : Inv m)
    (hst : m.gameStatus = Status.playing) :
    getRelevantEmptyCells m 2 ≠ [] := by
  obtain ⟨er, ec, hev, hee⟩ := empty_of_inv_playing hinv hst
  by_cases hocc : ∃ q : Int × Int, validPos m.boardSize q.1 q.2 = true ∧
      cellAt m.board q.1 q.2 ≠ 0
  · obtain ⟨q, p, hqv, hqc, hpv, hpc, hdr, hdc⟩ :=
      exists_adjacent_pair m.board m.boardSize hocc ⟨(er, ec), hev, hee⟩
    have hqb : ((0 ≤ q.1 ∧ q.1 < m.boardSize) ∧ 0 ≤ q.2) ∧ q.2 < m.boardSize := by
      simpa [validPos] using hqv
    have hpb : ((0 ≤ p.1 ∧ p.1 < m.boardSize) ∧ 0 ≤ p.2) ∧ p.2 < m.boardSize := by
      simpa [validPos] using hpv
    have hcand : p ∈ relevantCandidates m 2 := by
      unfold relevantCandidates
      refine List.mem_flatMap.2 ⟨q, mem_allCells.2 ⟨by omega, by omega, by omega, by omega⟩, ?_⟩
      rw [if_pos hqc]
      refine List.mem_filter.2 ⟨mem_neighborhood.2 ⟨?_, ?_, ?_, ?_⟩, by simp [hpc]⟩
      · omega
      · omega
      · omega
      · omega
    have hne : relevantCandidates m 2 ≠ [] := by
      intro hcon
      rw [hcon] at hcand
      cases hcand
    unfold getRelevantEmptyCells
    rw [if_neg]
    · exact foldl_insertUnique_ne_nil _ _ hne
    · rw [List.length_eq_zero]
      exact foldl_insertUnique_ne_nil _ _ hne
  · -- empty board: the center block is offered
    push_neg at hocc
    have hsz : m.boardSize = 15 ∨ m.boardSize = 19 := hinv.size_ok
    have hcands : relevantCandidates m 2 = [] := by
      unfold relevantCandidates
      rw [List.flatMap_eq_nil_iff]
      intro rc hrc
      rw [if_neg]
      intro hcon
      have hb := mem_allCells.1 hrc
      have := hocc rc (by
        simp only [validPos, Bool.and_eq_true, decide_eq_true_eq]
        omega)
      exact hcon this
    have hcbound : 0 ≤ ((m.boardSize.toNat / 2 : Nat) : Int) ∧
        ((m.boardSize.toNat / 2 : Nat) : Int) < m.boardSize := by
      rcases hsz with h | h <;> rw [h] <;> exact ⟨by decide, by decide⟩
    have hcv : validPos m.boardSize ((m.boardSize.toNat / 2 : Nat) : Int)
        ((m.boardSize.toNat / 2 : Nat) : Int) = true := by
      simp only [validPos, Bool.and_eq_true, decide_eq_true_eq]
      omega
    have hcenter : (((m.boardSize.toNat / 2 : Nat) : Int),
        ((m.boardSize.toNat / 2 : Nat) : Int)) ∈ centerCandidates m := by
      unfold centerCandidates
      refine List.mem_filter.2 ⟨?_, ?_⟩
      · exact List.mem_flatMap.2 ⟨((m.boardSize.toNat / 2 : Nat) : Int),
          mem_intRange.2 ⟨by omega, by omega⟩,
          List.mem_map.2 ⟨((m.boardSize.toNat / 2 : Nat) : Int),
            mem_intRange.2 ⟨by omega, by omega⟩, rfl⟩⟩
      · have hce := hocc (((m.boardSize.toNat / 2 : Nat) : Int),
          ((m.boardSize.toNat / 2 : Nat) : Int)) hcv
        push_neg at hce
        simp only [Bool.and_eq_true, beq_iff_eq]
        exact ⟨hcv, hce⟩
    unfold getRelevantEmptyCells
    rw [hcands]
    simp only [List.foldl_nil, List.length_nil, if_true]
    exact foldl_insertUnique_ne_nil _ _ (fun hcon => by rw [hcon] at hcenter; cases hcenter)

/-- The maximizing loop of `minimax`: provided every recursive call restores
its state up to `startTime` and returns a finite score, the loop (i) leaves
the threaded state equal to the input up to `startTime`, (ii) only reports
moves from its candidate list (or the incoming best move), (iii) keeps a
best move once one exists — and finds one on the first iteration when
seeded with `-∞` — and (iv) returns a finite score when seeded with a
finite score or `-∞` and a nonempty list. -/
theorem mmMax_spec (ai : AIPlayer) (hp : ai.player = 1 ∨ ai.player = 2)
    (recurse : GameModel → Score → Score → MMResult)
    (hrec : ∀ m2 : GameModel, Inv m2 → ∀ a b : Score,
      (∃ st, (recurse m2 a b).model = upSt m2 st) ∧
      (∃ n : Int, (recurse m2 a b).score = Score.fin n)) :
    ∀ (moves : List (Int × Int)) (m : GameModel) (best : Score)
      (bestMove : Option (Int × Int)) (alpha beta : Score),
      Inv m → m.gameStatus = Status.playing →
      (∀ mv ∈ moves, validPos m.boardSize mv.1 mv.2 = true ∧
        cellAt m.board mv.1 mv.2 = 0) →
      (∃ st, (mmMax ai recurse moves m best bestMove alpha beta).model = upSt m st) ∧
      (∀ mv, (mmMax ai recurse moves m best bestMove alpha beta).move = some mv →
        mv ∈ moves ∨ bestMove = some mv) ∧
      ((bestMove.isSome = true ∨ (best = Score.ninf ∧ moves ≠ [])) →
        ((mmMax ai recurse moves m best bestMove alpha beta).move).isSome = true) ∧
      (((∃ n : Int, best = Score.fin n) ∨ (best = Score.ninf ∧ moves ≠ [])) →
        ∃ n : Int, (mmMax ai recurse moves m best bestMove alpha beta).score = Score.fin n) := by
  intro moves
  induction moves with
  | nil =>
    intro m best bestMove alpha beta hinv hstp hmoves
    refine ⟨⟨m.startTime, (upSt_self m).symm⟩, ?_, ?_, ?_⟩
    · intro mv h
      exact Or.inr h
    · rintro (h | ⟨_, hne⟩)
      · exact h
      · exact absurd rfl hne
    · rintro (⟨n, hn⟩ | ⟨_, hne⟩)
      · exact ⟨n, hn⟩
      · exact absurd rfl hne
  | cons hd rest ih =>
    rcases hd with ⟨row, col⟩
    intro m best bestMove alpha beta hinv hstp hmoves
    have hhead := hmoves (row, col) (by simp)
    have hvm_m : isValidMove m row col = true := by
      simp only [isValidMove, GameModel.isValidPosition, Bool.and_eq_true, beq_iff_eq]
      exact ⟨⟨hhead.1, hhead.2⟩, hstp⟩
    have hvmv : isValidMove { m with currentPlayer := ai.player } row col = true := hvm_m
    have hinv1 : Inv { m with currentPlayer := ai.player } := inv_setPlayer hp hinv
    have hinv2 : Inv (makeMove { m with currentPlayer := ai.player } row col 0).1 :=
      makeMove_inv hinv1 hvmv
    obtain ⟨⟨st2, hmodel⟩, ⟨n, hscore⟩⟩ :=
      hrec (makeMove { m with currentPlayer := ai.player } row col 0).1 hinv2 alpha beta
    have hclean1 : ({ m with currentPlayer := ai.player } : GameModel).winner = none ∧
        ({ m with currentPlayer := ai.player } : GameModel).winLine = [] :=
      hinv1.clean hstp
    have hundo : (undoMove (makeMove { m with currentPlayer := ai.player } row col 0).1).1 =
        upSt { m with currentPlayer := ai.player }
          (if m.moveCount + 1 = 1 then some 0 else m.startTime) :=
      undo_makeMove hvmv hclean1
    have hm4eq : ({ (undoMove
          (recurse (makeMove { m with currentPlayer := ai.player } row col 0).1
            alpha beta).model).1 with currentPlayer := m.currentPlayer } : GameModel)
        = upSt m st2 := by
      rw [hmodel, undoMove_upSt, hundo, upSt_upSt]
      rfl
    have key : mmMax ai recurse ((row, col) :: rest) m best bestMove alpha beta =
        (if Score.le beta
            (Score.max alpha
              (recurse (makeMove { m with currentPlayer := ai.player } row col 0).1
                alpha beta).score) = true then
          (⟨if Score.lt best (recurse (makeMove { m with currentPlayer := ai.player }
                row col 0).1 alpha beta).score then
              (recurse (makeMove { m with currentPlayer := ai.player } row col 0).1
                alpha beta).score else best,
            if Score.lt best (recurse (makeMove { m with currentPlayer := ai.player }
                row col 0).1 alpha beta).score then some (row, col) else bestMove,
            { (undoMove (recurse (makeMove { m with currentPlayer := ai.player }
                row col 0).1 alpha beta).model).1 with
                currentPlayer := m.currentPlayer }⟩ : MMResult)
        else
          mmMax ai recurse rest
            { (undoMove (recurse (makeMove { m with currentPlayer := ai.player }
                row col 0).1 alpha beta).model).1 with
                currentPlayer := m.currentPlayer }
            (if Score.lt best (recurse (makeMove { m with currentPlayer := ai.player }
                row col 0).1 alpha beta).score then
              (recurse (makeMove { m with currentPlayer := ai.player } row col 0).1
                alpha beta).score else best)
            (if Score.lt best (recurse (makeMove { m with currentPlayer := ai.player }
                row col 0).1 alpha beta).score then some (row, col) else bestMove)
            (Score.max alpha
              (recurse (makeMove { m with currentPlayer := ai.player } row col 0).1
                alpha beta).score)
            beta) := rfl
    rw [key]
    by_cases hbr : Score.le beta
        (Score.max alpha
          (recurse (makeMove { m with currentPlayer := ai.player } row col 0).1
            alpha beta).score) = true
    · rw [if_pos hbr]
      refine ⟨⟨st2, hm4eq⟩, ?_, ?_, ?_⟩
      · intro mv hmv
        have hmv2 : (if Score.lt best (recurse (makeMove
            { m with currentPlayer := ai.player } row col 0).1 alpha beta).score then
              some (row, col) else bestMove) = some mv := hmv
        by_cases hlt : Score.lt best (recurse (makeMove
            { m with currentPlayer := ai.player } row col 0).1 alpha beta).score = true
        · rw [if_pos hlt] at hmv2
          left
          have h3 : (row, col) = mv := by injection hmv2
          rw [← h3]
          simp
        · rw [if_neg hlt] at hmv2
          exact Or.inr hmv2
      · rintro (hbs | ⟨hbninf, _⟩)
        · by_cases hlt : Score.lt best (recurse (makeMove
              { m with currentPlayer := ai.player } row col 0).1 alpha beta).score = true
          · have hgoal : ((if Score.lt best (recurse (makeMove
              { m with currentPlayer := ai.player } row col 0).1 alpha beta).score then
                some (row, col) else bestMove)).isSome = true := by
              rw [if_pos hlt]
              rfl
            exact hgoal
          · have hgoal : ((if Score.lt best (recurse (makeMove
              { m with currentPlayer := ai.player } row col 0).1 alpha beta).score then
                some (row, col) else bestMove)).isSome = true := by
              rw [if_neg hlt]
              exact hbs
            exact hgoal
        · have hlt : Score.lt best (recurse (makeMove
              { m with currentPlayer := ai.player } row col 0).1 alpha beta).score = true := by
            rw [hbninf, hscore]
            rfl
          have hgoal : ((if Score.lt best (recurse (makeMove
              { m with currentPlayer := ai.player } row col 0).1 alpha beta).score then
                some (row, col) else bestMove)).isSome = true := by
            rw [if_pos hlt]
            rfl
          exact hgoal
      · rintro (⟨k, hk⟩ | ⟨hbninf, _⟩)
        · by_cases hlt : Score.lt best (recurse (makeMove
              { m with currentPlayer := ai.player } row col 0).1 alpha beta).score = true
          · refine ⟨n, ?_⟩
            have hgoal : (if Score.lt best (recurse (makeMove
              { m with currentPlayer := ai.player } row col 0).1 alpha beta).score then
                (recurse (makeMove
                  { m with currentPlayer := ai.player } row col 0).1 alpha beta).score
              else best) = Score.fin n := by
              rw [if_pos hlt]
              exact hscore
            exact hgoal
          · refine ⟨k, ?_⟩
            have hgoal : (if Score.lt best (recurse (makeMove
              { m with currentPlayer := ai.player } row col 0).1 alpha beta).score then
                (recurse (makeMove
                  { m with currentPlayer := ai.player } row col 0).1 alpha beta).score
              else best) = Score.fin k := by
              rw [if_neg hlt]
              exact hk
            exact hgoal
        · have hlt : Score.lt best (recurse (makeMove
              { m with currentPlayer := ai.player } row col 0).1 alpha beta).score = true := by
            rw [hbninf, hscore]
            rfl
          refine ⟨n, ?_⟩
          have hgoal : (if Score.lt best (recurse (makeMove
              { m with currentPlayer := ai.player } row col 0).1 alpha beta).score then
                (recurse (makeMove
                  { m with currentPlayer := ai.player } row col 0).1 alpha beta).score
              else best) = Score.fin n := by
            rw [if_pos hlt]
            exact hscore
          exact hgoal
    · rw [if_neg hbr]
      have hinv4 : Inv ({ (undoMove (recurse (makeMove { m with currentPlayer := ai.player }
          row col 0).1 alpha beta).model).1 with currentPlayer := m.currentPlayer } :
            GameModel) := by
        rw [hm4eq]
        exact inv_upSt st2 hinv
      have hstp4 : ({ (undoMove (recurse (makeMove { m with currentPlayer := ai.player }
          row col 0).1 alpha beta).model).1 with currentPlayer := m.currentPlayer } :
            GameModel).gameStatus = Status.playing := by
        rw [hm4eq]
        exact hstp
      have hmoves4 : ∀ mv ∈ rest,
          validPos ({ (undoMove (recurse (makeMove { m with currentPlayer := ai.player }
            row col 0).1 alpha beta).model).1 with currentPlayer := m.currentPlayer } :
              GameModel).boardSize mv.1 mv.2 = true ∧
          cellAt ({ (undoMove (recurse (makeMove { m with currentPlayer := ai.player }
            row col 0).1 alpha beta).model).1 with currentPlayer := m.currentPlayer } :
              GameModel).board mv.1 mv.2 = 0 := by
        rw [hm4eq]
        intro mv hmv
        exact hmoves mv (by simp [hmv])
      obtain ⟨⟨st3, ha⟩, hb, hc, hd2⟩ := ih _ _ _ _ _ hinv4 hstp4 hmoves4
      refine ⟨⟨st3, by rw [ha, hm4eq, upSt_upSt]⟩, ?_, ?_, ?_⟩
      · intro mv hmv
        rcases hb mv hmv with h | h
        · left
          simp [h]
        · have h2 : (if Score.lt best (recurse (makeMove
              { m with currentPlayer := ai.player } row col 0).1 alpha beta).score then
                some (row, col) else bestMove) = some mv := h
          by_cases hlt : Score.lt best (recurse (makeMove
              { m with currentPlayer := ai.player } row col 0).1 alpha beta).score = true
          · rw [if_pos hlt] at h2
            left
            have h3 : (row, col) = mv := by injection h2
            rw [← h3]
            simp
          · rw [if_neg hlt] at h2
            exact Or.inr h2
      · rintro (hbs | ⟨hbninf, _⟩)
        · apply hc
          left
          by_cases hlt : Score.lt best (recurse (makeMove
              { m with currentPlayer := ai.player } row col 0).1 alpha beta).score = true
          · have hgoal : ((if Score.lt best (recurse (makeMove
              { m with currentPlayer := ai.player } row col 0).1 alpha beta).score then
                some (row, col) else bestMove)).isSome = true := by
              rw [if_pos hlt]
              rfl
            exact hgoal
          · have hgoal : ((if Score.lt best (recurse (makeMove
              { m with currentPlayer := ai.player } row col 0).1 alpha beta).score then
                some (row, col) else bestMove)).isSome = true := by
              rw [if_neg hlt]
              exact hbs
            exact hgoal
        · apply hc
          left
          have hlt : Score.lt best (recurse (makeMove
              { m with currentPlayer := ai.player } row col 0).1 alpha beta).score = true := by
            rw [hbninf, hscore]
            rfl
          have hgoal : ((if Score.lt best (recurse (makeMove
              { m with currentPlayer := ai.player } row col 0).1 alpha beta).score then
                some (row, col) else bestMove)).isSome = true := by
            rw [if_pos hlt]
            rfl
          exact hgoal
      · intro hpre
        apply hd2
        left
        rcases hpre with ⟨k, hk⟩ | ⟨hbninf, _⟩
        · by_cases hlt : Score.lt best (recurse (makeMove
              { m with currentPlayer := ai.player } row col 0).1 alpha beta).score = true
          · refine ⟨n, ?_⟩
            have hgoal : (if Score.lt best (recurse (makeMove
              { m with currentPlayer := ai.player } row col 0).1 alpha beta).score then
                (recurse (makeMove
                  { m with currentPlayer := ai.player } row col 0).1 alpha beta).score
              else best) = Score.fin n := by
              rw [if_pos hlt]
              exact hscore
            exact hgoal
          · refine ⟨k, ?_⟩
            have hgoal : (if Score.lt best (recurse (makeMove
              { m with currentPlayer := ai.player } row col 0).1 alpha beta).score then
                (recurse (makeMove
                  { m with currentPlayer := ai.player } row col 0).1 alpha beta).score
              else best) = Score.fin k := by
              rw [if_neg hlt]
              exact hk
            exact hgoal
        · have hlt : Score.lt best (recurse (makeMove
              { m with currentPlayer := ai.player } row col 0).1 alpha beta).score = true := by
            rw [hbninf, hscore]
            rfl
          refine ⟨n, ?_⟩
          have hgoal : (if Score.lt best (recurse (makeMove
              { m with currentPlayer := ai.player } row col 0).1 alpha beta).score then
                (recurse (makeMove
                  { m with currentPlayer := ai.player } row col 0).1 alpha beta).score
              else best) = Score.fin n := by
            rw [if_pos hlt]
            exact hscore
          exact hgoal

/-- Witness for C1 at a concrete reachable state and legal move. -/
theorem makeMove_undoMove_roundtrip_witness :
    (undoMove (makeMove GameModel.init 7 7 0).1).1.board = GameModel.init.board ∧
    (undoMove (makeMove GameModel.init 7 7 0).1).1.currentPlayer = GameModel.init.currentPlayer ∧
    (undoMove (makeMove GameModel.init 7 7 0).1).1.moveCount = GameModel.init.moveCount ∧
    (undoMove (makeMove GameModel.init 7 7 0).1).1.gameStatus = GameModel.init.gameStatus ∧
    (undoMove (makeMove GameModel.init 7 7 0).1).1.winner = GameModel.init.winner ∧
    (undoMove (makeMove GameModel.init 7 7 0).1).1.winLine = GameModel.init.winLine :=
  makeMove_undoMove_roundtrip GameModel.init 7 7 0 Reachable.base (by decide)


/-- The minimizing loop of `minimax`: provided every recursive call restores
its state up to `startTime` and returns a finite score, the loop (i) leaves
the threaded state equal to the input up to `startTime`, (ii) only reports
moves from its candidate list (or the incoming best move), (iii) keeps a
best move once one exists — and finds one on the first iteration when
seeded with `-∞` — and (iv) returns a finite score when seeded with a
finite score or `-∞` and a nonempty list. -/
theorem mmMin_spec (ai : AIPlayer) (hop : ai.opponent = 1 ∨ ai.opponent = 2)
    (recurse : GameModel → Score → Score → MMResult)
    (hrec : ∀ m2 : GameModel, Inv m2 → ∀ a b : Score,
      (∃ st, (recurse m2 a b).model = upSt m2 st) ∧
      (∃ n : Int, (recurse m2 a b).score = Score.fin n)) :
    ∀ (moves : List (Int × Int)) (m : GameModel) (best : Score)
      (bestMove : Option (Int × Int)) (alpha beta : Score),
      Inv m → m.gameStatus = Status.playing →
      (∀ mv ∈ moves, validPos m.boardSize mv.1 mv.2 = true ∧
        cellAt m.board mv.1 mv.2 = 0) →
      (∃ st, (mmMin ai recurse moves m best bestMove alpha beta).model = upSt m st) ∧
      (∀ mv, (mmMin ai recurse moves m best bestMove alpha beta).move = some mv →
        mv ∈ moves ∨ bestMove = some mv) ∧
      ((bestMove.isSome = true ∨ (best = Score.pinf ∧ moves ≠ [])) →
        ((mmMin ai recurse moves m best bestMove alpha beta).move).isSome = true) ∧
      (((∃ n : Int, best = Score.fin n) ∨ (best = Score.pinf ∧ moves ≠ [])) →
        ∃ n : Int, (mmMin ai recurse moves m best bestMove alpha beta).score = Score.fin n) := by
  intro moves
  induction moves with
  | nil =>
    intro m best bestMove alpha beta hinv hstp hmoves
    refine ⟨⟨m.startTime, (upSt_self m).symm⟩, ?_, ?_, ?_⟩
    · intro mv h
      exact Or.inr h
    · rintro (h | ⟨_, hne⟩)
      · exact h
      · exact absurd rfl hne
    · rintro (⟨n, hn⟩ | ⟨_, hne⟩)
      · exact ⟨n, hn⟩
      · exact absurd rfl hne
  | cons hd rest ih =>
    rcases hd with ⟨row, col⟩
    intro m best bestMove alpha beta hinv hstp hmoves
    have hhead := hmoves (row, col) (by simp)
    have hvm_m : isValidMove m row col = true := by
      simp only [isValidMove, GameModel.isValidPosition, Bool.and_eq_true, beq_iff_eq]
      exact ⟨⟨hhead.1, hhead.2⟩, hstp⟩
    have hvmv : isValidMove { m with currentPlayer := ai.opponent } row col = true := hvm_m
    have hinv1 : Inv { m with currentPlayer := ai.opponent } := inv_setPlayer hop hinv
    have hinv2 : Inv (makeMove { m with currentPlayer := ai.opponent } row col 0).1 :=
      makeMove_inv hinv1 hvmv
    obtain ⟨⟨st2, hmodel⟩, ⟨n, hscore⟩⟩ :=
      hrec (makeMove { m with currentPlayer := ai.opponent } row col 0).1 hinv2 alpha beta
    have hclean1 : ({ m with currentPlayer := ai.opponent } : GameModel).winner = none ∧
        ({ m with currentPlayer := ai.opponent } : GameModel).winLine = [] :=
      hinv1.clean hstp
    have hundo : (undoMove (makeMove { m with currentPlayer := ai.opponent } row col 0).1).1 =
        upSt { m with currentPlayer := ai.opponent }
          (if m.moveCount + 1 = 1 then some 0 else m.startTime) :=
      undo_makeMove hvmv hclean1
    have hm4eq : ({ (undoMove
          (recurse (makeMove { m with currentPlayer := ai.opponent } row col 0).1
            alpha beta).model).1 with currentPlayer := m.currentPlayer } : GameModel)
        = upSt m st2 := by
      rw [hmodel, undoMove_upSt, hundo, upSt_upSt]
      rfl
    have key : mmMin ai recurse ((row, col) :: rest) m best bestMove alpha beta =
        (if Score.le (Score.min beta (recurse (makeMove { m with currentPlayer := ai.opponent } row col 0).1
                alpha beta).score) alpha = true then
          (⟨if Score.lt (recurse (makeMove { m with currentPlayer := ai.opponent }
                row col 0).1 alpha beta).score best then
              (recurse (makeMove { m with currentPlayer := ai.opponent } row col 0).1
                alpha beta).score else best,
            if Score.lt (recurse (makeMove { m with currentPlayer := ai.opponent }
                row col 0).1 alpha beta).score best then some (row, col) else bestMove,
            { (undoMove (recurse (makeMove { m with currentPlayer := ai.opponent }
                row col 0).1 alpha beta).model).1 with
                currentPlayer := m.currentPlayer }⟩ : MMResult)
        else
          mmMin ai recurse rest
            { (undoMove (recurse (makeMove { m with currentPlayer := ai.opponent }
                row col 0).1 alpha beta).model).1 with
                currentPlayer := m.currentPlayer }
            (if Score.lt (recurse (makeMove { m with currentPlayer := ai.opponent }
                row col 0).1 alpha beta).score best then
              (recurse (makeMove { m with currentPlayer := ai.opponent } row col 0).1
                alpha beta).score else best)
            (if Score.lt (recurse (makeMove { m with currentPlayer := ai.opponent }
                row col 0).1 alpha beta).score best then some (row, col) else bestMove)
            alpha
            (Score.min beta (recurse (makeMove { m with currentPlayer := ai.opponent } row col 0).1
                alpha beta).score)) := rfl
    rw [key]
    by_cases hbr : Score.le (Score.min beta (recurse (makeMove { m with currentPlayer := ai.opponent } row col 0).1
            alpha beta).score) alpha = true
    · rw [if_pos hbr]
      refine ⟨⟨st2, hm4eq⟩, ?_, ?_, ?_⟩
      · intro mv hmv
        have hmv2 : (if Score.lt (recurse (makeMove
            { m with currentPlayer := ai.opponent } row col 0).1 alpha beta).score best then
              some (row, col) else bestMove) = some mv := hmv
        by_cases hlt : Score.lt (recurse (makeMove
            { m with currentPlayer := ai.opponent } row col 0).1 alpha beta).score best = true
        · rw [if_pos hlt] at hmv2
          left
          have h3 : (row, col) = mv := by injection hmv2
          rw [← h3]
          simp
        · rw [if_neg hlt] at hmv2
          exact Or.inr hmv2
      · rintro (hbs | ⟨hbninf, _⟩)
        · by_cases hlt : Score.lt (recurse (makeMove
              { m with currentPlayer := ai.opponent } row col 0).1 alpha beta).score best = true
          · have hgoal : ((if Score.lt (recurse (makeMove
              { m with currentPlayer := ai.opponent } row col 0).1 alpha beta).score best then
                some (row, col) else bestMove)).isSome = true := by
              rw [if_pos hlt]
              rfl
            exact hgoal
          · have hgoal : ((if Score.lt (recurse (makeMove
              { m with currentPlayer := ai.opponent } row col 0).1 alpha beta).score best then
                some (row, col) else bestMove)).isSome = true := by
              rw [if_neg hlt]
              exact hbs
            exact hgoal
        · have hlt : Score.lt (recurse (makeMove
              { m with currentPlayer := ai.opponent } row col 0).1 alpha beta).score best = true := by
            rw [hbninf, hscore]
            rfl
          have hgoal : ((if Score.lt (recurse (makeMove
              { m with currentPlayer := ai.opponent } row col 0).1 alpha beta).score best then
                some (row, col) else bestMove)).isSome = true := by
            rw [if_pos hlt]
            rfl
          exact hgoal
      · rintro (⟨k, hk⟩ | ⟨hbninf, _⟩)
        · by_cases hlt : Score.lt (recurse (makeMove
              { m with currentPlayer := ai.opponent } row col 0).1 alpha beta).score best = true
          · refine ⟨n, ?_⟩
            have hgoal : (if Score.lt (recurse (makeMove
              { m with currentPlayer := ai.opponent } row col 0).1 alpha beta).score best then
                (recurse (makeMove
                  { m with currentPlayer := ai.opponent } row col 0).1 alpha beta).score
              else best) = Score.fin n := by
              rw [if_pos hlt]
              exact hscore
            exact hgoal
          · refine ⟨k, ?_⟩
            have hgoal : (if Score.lt (recurse (makeMove
              { m with currentPlayer := ai.opponent } row col 0).1 alpha beta).score best then
                (recurse (makeMove
                  { m with currentPlayer := ai.opponent } row col 0).1 alpha beta).score
              else best) = Score.fin k := by
              rw [if_neg hlt]
              exact hk
            exact hgoal
        · have hlt : Score.lt (recurse (makeMove
              { m with currentPlayer := ai.opponent } row col 0).1 alpha beta).score best = true := by
            rw [hbninf, hscore]
            rfl
          refine ⟨n, ?_⟩
          have hgoal : (if Score.lt (recurse (makeMove
              { m with currentPlayer := ai.opponent } row col 0).1 alpha beta).score best then
                (recurse (makeMove
                  { m with currentPlayer := ai.opponent } row col 0).1 alpha beta).score
              else best) = Score.fin n := by
            rw [if_pos hlt]
            exact hscore
          exact hgoal
    · rw [if_neg hbr]
      have hinv4 : Inv ({ (undoMove (recurse (makeMove { m with currentPlayer := ai.opponent }
          row col 0).1 alpha beta).model).1 with currentPlayer := m.currentPlayer } :
            GameModel) := by
        rw [hm4eq]
        exact inv_upSt st2 hinv
      have hstp4 : ({ (undoMove (recurse (makeMove { m with currentPlayer := ai.opponent }
          row col 0).1 alpha beta).model).1 with currentPlayer := m.currentPlayer } :
            GameModel).gameStatus = Status.playing := by
        rw [hm4eq]
        exact hstp
      have hmoves4 : ∀ mv ∈ rest,
          validPos ({ (undoMove (recurse (makeMove { m with currentPlayer := ai.opponent }
            row col 0).1 alpha beta).model).1 with currentPlayer := m.currentPlayer } :
              GameModel).boardSize mv.1 mv.2 = true ∧
          cellAt ({ (undoMove (recurse (makeMove { m with currentPlayer := ai.opponent }
            row col 0).1 alpha beta).model).1 with currentPlayer := m.currentPlayer } :
              GameModel).board mv.1 mv.2 = 0 := by
        rw [hm4eq]
        intro mv hmv
        exact hmoves mv (by simp [hmv])
      obtain ⟨⟨st3, ha⟩, hb, hc, hd2⟩ := ih _ _ _ _ _ hinv4 hstp4 hmoves4
      refine ⟨⟨st3, by rw [ha, hm4eq, upSt_upSt]⟩, ?_, ?_, ?_⟩
      · intro mv hmv
        rcases hb mv hmv with h | h
        · left
          simp [h]
        · have h2 : (if Score.lt (recurse (makeMove
              { m with currentPlayer := ai.opponent } row col 0).1 alpha beta).score best then
                some (row, col) else bestMove) = some mv := h
          by_cases hlt : Score.lt (recurse (makeMove
              { m with currentPlayer := ai.opponent } row col 0).1 alpha beta).score best = true
          · rw [if_pos hlt] at h2
            left
            have h3 : (row, col) = mv := by injection h2
            rw [← h3]
            simp
          · rw [if_neg hlt] at h2
            exact Or.inr h2
      · rintro (hbs | ⟨hbninf, _⟩)
        · apply hc
          left
          by_cases hlt : Score.lt (recurse (makeMove
              { m with currentPlayer := ai.opponent } row col 0).1 alpha beta).score best = true
          · have hgoal : ((if Score.lt (recurse (makeMove
              { m with currentPlayer := ai.opponent } row col 0).1 alpha beta).score best then
                some (row, col) else bestMove)).isSome = true := by
              rw [if_pos hlt]
              rfl
            exact hgoal
          · have hgoal : ((if Score.lt (recurse (makeMove
              { m with currentPlayer := ai.opponent } row col 0).1 alpha beta).score best then
                some (row, col) else bestMove)).isSome = true := by
              rw [if_neg hlt]
              exact hbs
            exact hgoal
        · apply hc
          left
          have hlt : Score.lt (recurse (makeMove
              { m with currentPlayer := ai.opponent } row col 0).1 alpha beta).score best = true := by
            rw [hbninf, hscore]
            rfl
          have hgoal : ((if Score.lt (recurse (makeMove
              { m with currentPlayer := ai.opponent } row col 0).1 alpha beta).score best then
                some (row, col) else bestMove)).isSome = true := by
            rw [if_pos hlt]
            rfl
          exact hgoal
      · intro hpre
        apply hd2
        left
        rcases hpre with ⟨k, hk⟩ | ⟨hbninf, _⟩
        · by_cases hlt : Score.lt (recurse (makeMove
              { m with currentPlayer := ai.opponent } row col 0).1 alpha beta).score best = true
          · refine ⟨n, ?_⟩
            have hgoal : (if Score.lt (recurse (makeMove
              { m with currentPlayer := ai.opponent } row col 0).1 alpha beta).score best then
                (recurse (makeMove
                  { m with currentPlayer := ai.opponent } row col 0).1 alpha beta).score
              else best) = Score.fin n := by
              rw [if_pos hlt]
              exact hscore
            exact hgoal
          · refine ⟨k, ?_⟩
            have hgoal : (if Score.lt (recurse (makeMove
              { m with currentPlayer := ai.opponent } row col 0).1 alpha beta).score best then
                (recurse (makeMove
                  { m with currentPlayer := ai.opponent } row col 0).1 alpha beta).score
              else best) = Score.fin k := by
              rw [if_neg hlt]
              exact hk
            exact hgoal
        · have hlt : Score.lt (recurse (makeMove
              { m with currentPlayer := ai.opponent } row col 0).1 alpha beta).score best = true := by
            rw [hbninf, hscore]
            rfl
          refine ⟨n, ?_⟩
          have hgoal : (if Score.lt (recurse (makeMove
              { m with currentPlayer := ai.opponent } row col 0).1 alpha beta).score best then
                (recurse (makeMove
                  { m with currentPlayer := ai.opponent } row col 0).1 alpha beta).score
              else best) = Score.fin n := by
            rw [if_pos hlt]
            exact hscore
          exact hgoal


/-- Unfolding equation for `minimax` at a successor depth. -/
theorem minimax_succ_eq (ai : AIPlayer) (d : Nat) (m : GameModel) (maximizing : Bool)
    (alpha beta : Score) :
    minimax ai (d + 1) m maximizing alpha beta =
      if m.gameStatus ≠ Status.playing then
        ⟨Score.fin (evaluatePosition ai m), none, m⟩
      else if maximizing then
        mmMax ai (fun m2 a b => minimax ai d m2 false a b)
          (getRelevantEmptyCells m 2) m Score.ninf none alpha beta
      else
        mmMin ai (fun m2 a b => minimax ai d m2 true a b)
          (getRelevantEmptyCells m 2) m Score.pinf none alpha beta := rfl

/-- Master property of `minimax`: on invariant-respecting states it restores the
model up to `startTime`, always returns a finite score, every returned move is a
relevant empty cell, and at positive depth on a playing state a move is
returned. -/
theorem minimax_master (ai : AIPlayer) (hp : ai.player = 1 ∨ ai.player = 2)
    (hop : ai.opponent = 1 ∨ ai.opponent = 2) :
    ∀ (d : Nat) (m : GameModel) (maximizing : Bool) (alpha beta : Score),
      Inv m →
      (∃ st, (minimax ai d m maximizing alpha beta).model = upSt m st) ∧
      (∃ n : Int, (minimax ai d m maximizing alpha beta).score = Score.fin n) ∧
      (∀ mv, (minimax ai d m maximizing alpha beta).move = some mv →
        mv ∈ getRelevantEmptyCells m 2) ∧
      (0 < d → m.gameStatus = Status.playing →
        ((minimax ai d m maximizing alpha beta).move).isSome = true) := by
  intro d
  induction d with
  | zero =>
    intro m maximizing alpha beta hinv
    refine ⟨⟨m.startTime, (upSt_self m).symm⟩, ⟨evaluatePosition ai m, rfl⟩, ?_, ?_⟩
    · intro mv h
      exact absurd h (by simp [minimax])
    · intro h
      exact absurd h (by decide)
  | succ d ih =>
    intro m maximizing alpha beta hinv
    by_cases hst : m.gameStatus = Status.playing
    · have hmoves : ∀ mv ∈ getRelevantEmptyCells m 2,
          validPos m.boardSize mv.1 mv.2 = true ∧ cellAt m.board mv.1 mv.2 = 0 :=
        fun mv hmv => mem_relevant hmv
      have hne : getRelevantEmptyCells m 2 ≠ [] := relevant_ne_nil hinv hst
      cases maximizing with
      | true =>
        have hrec : ∀ m2 : GameModel, Inv m2 → ∀ a b : Score,
            (∃ st, (minimax ai d m2 false a b).model = upSt m2 st) ∧
            (∃ n : Int, (minimax ai d m2 false a b).score = Score.fin n) :=
          fun m2 hinv2 a b => ⟨(ih m2 false a b hinv2).1, (ih m2 false a b hinv2).2.1⟩
        obtain ⟨hmod, hmv, hsome, hsc⟩ :=
          mmMax_spec ai hp (fun m2 a b => minimax ai d m2 false a b) hrec
            (getRelevantEmptyCells m 2) m Score.ninf none alpha beta hinv hst hmoves
        have hrw : minimax ai (d + 1) m true alpha beta =
            mmMax ai (fun m2 a b => minimax ai d m2 false a b)
              (getRelevantEmptyCells m 2) m Score.ninf none alpha beta := by
          rw [minimax_succ_eq, if_neg (by simp [hst])]
          rfl
        rw [hrw]
        refine ⟨hmod, ?_, ?_, ?_⟩
        · exact hsc (Or.inr ⟨rfl, hne⟩)
        · intro mv h
          rcases hmv mv h with h2 | h2
          · exact h2
          · exact absurd h2 (by simp)
        · intro _ _
          exact hsome (Or.inr ⟨rfl, hne⟩)
      | false =>
        have hrec : ∀ m2 : GameModel, Inv m2 → ∀ a b : Score,
            (∃ st, (minimax ai d m2 true a b).model = upSt m2 st) ∧
            (∃ n : Int, (minimax ai d m2 true a b).score = Score.fin n) :=
          fun m2 hinv2 a b => ⟨(ih m2 true a b hinv2).1, (ih m2 true a b hinv2).2.1⟩
        obtain ⟨hmod, hmv, hsome, hsc⟩ :=
          mmMin_spec ai hop (fun m2 a b => minimax ai d m2 true a b) hrec
            (getRelevantEmptyCells m 2) m Score.pinf none alpha beta hinv hst hmoves
        have hrw : minimax ai (d + 1) m false alpha beta =
            mmMin ai (fun m2 a b => minimax ai d m2 true a b)
              (getRelevantEmptyCells m 2) m Score.pinf none alpha beta := by
          rw [minimax_succ_eq, if_neg (by simp [hst])]
          rfl
        rw [hrw]
        refine ⟨hmod, ?_, ?_, ?_⟩
        · exact hsc (Or.inr ⟨rfl, hne⟩)
        · intro mv h
          rcases hmv mv h with h2 | h2
          · exact h2
          · exact absurd h2 (by simp)
        · intro _ _
          exact hsome (Or.inr ⟨rfl, hne⟩)
    · have hrw : minimax ai (d + 1) m maximizing alpha beta =
          ⟨Score.fin (evaluatePosition ai m), none, m⟩ := by
        rw [minimax_succ_eq, if_pos hst]
      rw [hrw]
      refine ⟨⟨m.startTime, (upSt_self m).symm⟩, ⟨evaluatePosition ai m, rfl⟩, ?_, ?_⟩
      · intro mv h
        exact absurd h (by simp)
      · intro _ h
        exact absurd h hst


/-- **C4.** For every reachable in-progress game state handed to the search,
`minimax` (at any depth, for any difficulty, in either mode, with any window)
returns the model with board grid, move history, move count, current player,
game status, winner and winning line all unchanged from before the search:
every trial `makeMove` was paired with an `undoMove`. -/
theorem minimax_restores (diff : Difficulty) (d : Nat) (m : GameModel)
    (maximizing : Bool) (alpha beta : Score)
    (hm : Reachable m) (hst : m.gameStatus = Status.playing) :
    (minimax (mkAIPlayer diff) d m maximizing alpha beta).model.board = m.board ∧
    (minimax (mkAIPlayer diff) d m maximizing alpha beta).model.moveHistory =
      m.moveHistory ∧
    (minimax (mkAIPlayer diff) d m maximizing alpha beta).model.moveCount =
      m.moveCount ∧
    (minimax (mkAIPlayer diff) d m maximizing alpha beta).model.currentPlayer =
      m.currentPlayer ∧
    (minimax (mkAIPlayer diff) d m maximizing alpha beta).model.gameStatus =
      m.gameStatus ∧
    (minimax (mkAIPlayer diff) d m maximizing alpha beta).model.winner = m.winner ∧
    (minimax (mkAIPlayer diff) d m maximizing alpha beta).model.winLine = m.winLine := by
  obtain ⟨st, hmod⟩ := (minimax_master (mkAIPlayer diff) (Or.inr rfl) (Or.inl rfl)
    d m maximizing alpha beta (reachable_inv hm)).1
  rw [hmod]
  exact ⟨rfl, rfl, rfl, rfl, rfl, rfl, rfl⟩

/-- Witness for C4 on the fresh board. -/
theorem minimax_restores_witness :
    (minimax (mkAIPlayer Difficulty.easy) 0 GameModel.init true
        Score.ninf Score.pinf).model.board = GameModel.init.board ∧
    (minimax (mkAIPlayer Difficulty.easy) 0 GameModel.init true
        Score.ninf Score.pinf).model.moveHistory = GameModel.init.moveHistory ∧
    (minimax (mkAIPlayer Difficulty.easy) 0 GameModel.init true
        Score.ninf Score.pinf).model.moveCount = GameModel.init.moveCount ∧
    (minimax (mkAIPlayer Difficulty.easy) 0 GameModel.init true
        Score.ninf Score.pinf).model.currentPlayer = GameModel.init.currentPlayer ∧
    (minimax (mkAIPlayer Difficulty.easy) 0 GameModel.init true
        Score.ninf Score.pinf).model.gameStatus = GameModel.init.gameStatus ∧
    (minimax (mkAIPlayer Difficulty.easy) 0 GameModel.init true
        Score.ninf Score.pinf).model.winner = GameModel.init.winner ∧
    (minimax (mkAIPlayer Difficulty.easy) 0 GameModel.init true
        Score.ninf Score.pinf).model.winLine = GameModel.init.winLine :=
  minimax_restores Difficulty.easy 0 GameModel.init true Score.ninf Score.pinf
    Reachable.base rfl

/-- `Math.floor(q * n)` is a valid index into a list of length `n` when
`0 ≤ q < 1`. -/
theorem randIndex_lt {q : ℚ} {n : Nat} (h0 : 0 ≤ q) (h1 : q < 1) (hn : 0 < n) :
    randIndex q n < n := by
  unfold randIndex
  have hn' : (0 : ℚ) < (n : ℚ) := by exact_mod_cast hn
  have hmul0 : 0 ≤ q * (n : ℚ) := mul_nonneg h0 (le_of_lt hn')
  have hmul1 : q * (n : ℚ) < (n : ℚ) := by
    calc q * (n : ℚ) < 1 * (n : ℚ) := mul_lt_mul_of_pos_right h1 hn'
    _ = (n : ℚ) := one_mul _
  have hf0 : 0 ≤ (q * (n : ℚ)).floor := Rat.le_floor.2 (by exact_mod_cast hmul0)
  have hf1 : (q * (n : ℚ)).floor < (n : Int) := by
    by_contra hcon
    push_neg at hcon
    have hle : ((n : Nat) : ℚ) ≤ q * (n : ℚ) := by exact_mod_cast Rat.le_floor.1 hcon
    exact absurd hmul1 (not_lt.2 hle)
  omega

/-- Anything returned by `addRandomness` is the proposed move or one of the
alternatives. -/
theorem addRandomness_mem {ai : AIPlayer} {q1 q2 : ℚ} {bestMove mv : Int × Int}
    {alts : List (Int × Int)}
    (h : addRandomness ai q1 q2 bestMove alts = some mv) :
    mv = bestMove ∨ mv ∈ alts := by
  unfold addRandomness at h
  split at h
  · exact Or.inr (List.get?_mem h)
  · exact Or.inl (Option.some.inj h).symm

/-- With an in-range second draw, `addRandomness` always returns a move: the
random index stays inside the alternatives array. -/
theorem addRandomness_isSome {ai : AIPlayer} {q1 q2 : ℚ} {bestMove : Int × Int}
    {alts : List (Int × Int)} (h0 : 0 ≤ q2) (h1 : q2 < 1) :
    (addRandomness ai q1 q2 bestMove alts).isSome = true := by
  unfold addRandomness
  split
  · rename_i hc
    have hlen : 1 < alts.length := hc.2
    have h2 : randIndex q2 (min 3 alts.length) < min 3 alts.length :=
      randIndex_lt h0 h1 (by omega)
    have hidx : randIndex q2 (min 3 alts.length) < alts.length := by omega
    rw [List.get?_eq_get hidx]
    rfl
  · rfl

/-- A cell that is in bounds and empty on a playing board is a valid move. -/
theorem isValidMove_of_parts {m : GameModel} {row col : Int}
    (hv : validPos m.boardSize row col = true) (hc : cellAt m.board row col = 0)
    (hs : m.gameStatus = Status.playing) : isValidMove m row col = true := by
  simp only [isValidMove, GameModel.isValidPosition, Bool.and_eq_true, beq_iff_eq]
  exact ⟨⟨hv, hc⟩, hs⟩

/-- **C3.** On every reachable in-progress state, `getBestMove` only ever
returns moves that `isValidMove` accepts, and (for an in-range randomization
draw) it always returns a move. -/
theorem getBestMove_legal (diff : Difficulty) (m : GameModel) (q1 q2 q3 q4 : ℚ)
    (hm : Reachable m) (hst : m.gameStatus = Status.playing)
    (h0 : 0 ≤ q2) (h1 : q2 < 1) :
    (∀ mv, getBestMove (mkAIPlayer diff) m q1 q2 q3 q4 = some mv →
      isValidMove m mv.1 mv.2 = true) ∧
    (getBestMove (mkAIPlayer diff) m q1 q2 q3 q4).isSome = true := by
  have hinv := reachable_inv hm
  cases hw1 : findWinningMove m.board m.boardSize (mkAIPlayer diff).player with
  | some winMove =>
    have hgb : getBestMove (mkAIPlayer diff) m q1 q2 q3 q4 =
        addRandomness (mkAIPlayer diff) q1 q2 winMove [winMove] := by
      unfold getBestMove
      rw [hw1]
    have heq : addRandomness (mkAIPlayer diff) q1 q2 winMove [winMove] =
        some winMove := by
      unfold addRandomness
      rw [if_neg]
      simp
    obtain ⟨hvp, hcell, _⟩ := findWinningMove_some hw1
    constructor
    · intro mv hmv
      rw [hgb, heq] at hmv
      cases Option.some.inj hmv
      exact isValidMove_of_parts hvp hcell hst
    · rw [hgb, heq]
      rfl
  | none =>
    cases hw2 : findWinningMove m.board m.boardSize (mkAIPlayer diff).opponent with
    | some blockMove =>
      have hgb : getBestMove (mkAIPlayer diff) m q1 q2 q3 q4 =
          addRandomness (mkAIPlayer diff) q1 q2 blockMove [blockMove] := by
        unfold getBestMove
        rw [hw1, hw2]
      have heq : addRandomness (mkAIPlayer diff) q1 q2 blockMove [blockMove] =
          some blockMove := by
        unfold addRandomness
        rw [if_neg]
        simp
      obtain ⟨hvp, hcell, _⟩ := findWinningMove_some hw2
      constructor
      · intro mv hmv
        rw [hgb, heq] at hmv
        cases Option.some.inj hmv
        exact isValidMove_of_parts hvp hcell hst
      · rw [hgb, heq]
        rfl
    | none =>
      obtain ⟨hmodel, hscore, hmvmem, hsome⟩ :=
        minimax_master (mkAIPlayer diff) (Or.inr rfl) (Or.inl rfl)
          (mkAIPlayer diff).depth m true Score.ninf Score.pinf hinv
      have hdepth : 0 < (mkAIPlayer diff).depth := by
        cases diff <;> decide
      have hms := hsome hdepth hst
      cases hmv : (minimax (mkAIPlayer diff) (mkAIPlayer diff).depth m true
          Score.ninf Score.pinf).move with
      | none =>
        rw [hmv] at hms
        exact absurd hms (by decide)
      | some bestMove =>
        obtain ⟨st, hmod⟩ := hmodel
        have hgb : getBestMove (mkAIPlayer diff) m q1 q2 q3 q4 =
            addRandomness (mkAIPlayer diff) q1 q2 bestMove
              (getRelevantEmptyCells
                (minimax (mkAIPlayer diff) (mkAIPlayer diff).depth m true
                  Score.ninf Score.pinf).model 2) := by
          simp only [getBestMove]
          rw [hw1, hw2, hmv]
        have hrel : getRelevantEmptyCells
            (minimax (mkAIPlayer diff) (mkAIPlayer diff).depth m true
              Score.ninf Score.pinf).model 2 = getRelevantEmptyCells m 2 := by
          rw [hmod]
          rfl
        constructor
        · intro mv hmvr
          rw [hgb, hrel] at hmvr
          have hmem : mv ∈ getRelevantEmptyCells m 2 := by
            rcases addRandomness_mem hmvr with h | h
            · rw [h]
              exact hmvmem bestMove hmv
            · exact h
          obtain ⟨hvp, hcell⟩ := mem_relevant hmem
          exact isValidMove_of_parts hvp hcell hst
        · rw [hgb]
          exact addRandomness_isSome h0 h1

/-- Witness for C3 on the fresh board with a fixed draw. -/
theorem getBestMove_legal_witness :
    (∀ mv, getBestMove (mkAIPlayer Difficulty.easy) GameModel.init 0 0 0 0 = some mv →
      isValidMove GameModel.init mv.1 mv.2 = true) ∧
    (getBestMove (mkAIPlayer Difficulty.easy) GameModel.init 0 0 0 0).isSome = true :=
  getBestMove_legal Difficulty.easy GameModel.init 0 0 0 0
    Reachable.base rfl (le_refl 0) zero_lt_one

end Gomoku
